import Mathlib

/-!
# Lily type system: generic solving and variance checks

A shallow embedding of `src/lily_type_system.c`.

* A `lily_type *` is a value of `lily_type`: either `null` or a node carrying
  the fields `cls`, `flags`, `generic_pos` and the `subtypes` array (whose
  length is `subtype_count`).  Types are interned by the type maker, so the
  pointer comparison `left == right` of the source is equality of trees.
* A `lily_class *` is an address (a natural number) into the class table of
  `Registry`; `cls->id`, `cls->flags`, `cls->parent` and `cls->variant_type`
  are read from that table, and `left->cls == right->cls` compares addresses.
* `ts->types` is a map from indices to type pointers and `ts->max` its
  allocated length.  Reads and writes are unchecked, as in C.
* Recursion and the parent walk are bounded by a fuel argument; a
  dereference of `null`, an index outside a `subtypes` array and running
  out of fuel are reported as a `Fault`.
-/

/-- Ways in which a run of the embedded code can fail to produce a value. -/
inductive Fault where
  | out_of_fuel : Fault
  | null_deref : Fault
  | out_of_bounds : Fault
deriving DecidableEq

/-- The type `lily_type *`: `null`, or a node with its class address, flags,
generic position and subtypes array. -/
inductive lily_type where
  | null : lily_type
  | node (cls : Nat) (flags : Nat) (generic_pos : Nat) (subtypes : List lily_type) : lily_type

mutual
/-- Equality of type trees is decidable (the pointer comparison `==`). -/
def lily_type.decEq : (a b : lily_type) → Decidable (a = b)
  | .null, .null => isTrue rfl
  | .null, .node _ _ _ _ => isFalse (fun h => lily_type.noConfusion h)
  | .node _ _ _ _, .null => isFalse (fun h => lily_type.noConfusion h)
  | .node c f g s, .node c2 f2 g2 s2 =>
      if h1 : c = c2 then
        if h2 : f = f2 then
          if h3 : g = g2 then
            match lily_type.decEqList s s2 with
            | isTrue h4 => isTrue (by rw [h1, h2, h3, h4])
            | isFalse h4 => isFalse (fun h => h4 (by injection h))
          else isFalse (fun h => h3 (by injection h))
        else isFalse (fun h => h2 (by injection h))
      else isFalse (fun h => h1 (by injection h))
/-- Equality of subtype arrays is decidable. -/
def lily_type.decEqList : (a b : List lily_type) → Decidable (a = b)
  | [], [] => isTrue rfl
  | [], _ :: _ => isFalse (fun h => List.noConfusion h)
  | _ :: _, [] => isFalse (fun h => List.noConfusion h)
  | a :: as, b :: bs =>
      match lily_type.decEq a b with
      | isTrue h1 =>
          match lily_type.decEqList as bs with
          | isTrue h2 => isTrue (by rw [h1, h2])
          | isFalse h2 => isFalse (fun h => h2 (by injection h))
      | isFalse h1 => isFalse (fun h => h1 (by injection h))
end

instance : DecidableEq lily_type := lily_type.decEq

/-- The fields of `lily_class` that the type system reads. -/
structure lily_class where
  id : Nat
  flags : Nat
  parent : Option Nat
  variant_type : lily_type

/-- The class table together with the constants of the headers that are not
part of this file (`SYM_CLASS_*`, `CLS_IS_*`). -/
structure Registry where
  classes : Nat → lily_class
  SYM_CLASS_GENERIC : Nat
  SYM_CLASS_FUNCTION : Nat
  SYM_CLASS_OPTARG : Nat
  CLS_IS_ENUM : Nat
  CLS_IS_VARIANT : Nat

/-- The fields of `lily_type_system` (the type maker handle `tm` apart). -/
structure lily_type_system where
  types : Nat → lily_type
  pos : Nat
  max : Nat
  max_seen : Nat
  ceiling : Nat
  any_class_type : lily_type

/-- Result of a step of the embedded code. -/
abbrev Res (α : Type) := Except Fault α

def T_DONT_SOLVE : Nat := 0x1

def T_COVARIANT : Nat := 0x2

def T_CONTRAVARIANT : Nat := 0x4

/-- The read `type->cls`. -/
def cls_of : lily_type → Res Nat
  | .null => .error .null_deref
  | .node c _ _ _ => .ok c

/-- The read `type->generic_pos`. -/
def generic_pos_of : lily_type → Res Nat
  | .null => .error .null_deref
  | .node _ _ g _ => .ok g

/-- The read `type->subtype_count`. -/
def subtype_count : lily_type → Res Nat
  | .null => .error .null_deref
  | .node _ _ _ s => .ok s.length

/-- The read `type->subtypes[i]`. -/
def subtype_at : lily_type → Nat → Res lily_type
  | .null, _ => .error .null_deref
  | .node _ _ _ s, i =>
      match s[i]? with
      | some t => .ok t
      | none => .error .out_of_bounds

/-- The read `type->cls->id`. -/
def cls_id (env : Registry) (t : lily_type) : Res Nat :=
  match cls_of t with
  | .error e => .error e
  | .ok c => .ok (env.classes c).id

/-- The write `ts->types[i] = v`. -/
def set_type (ts : lily_type_system) (i : Nat) (v : lily_type) : lily_type_system :=
  { ts with types := fun j => if j = i then v else ts.types j }

/-- `lily_new_type_system`: four slots, everything else zero.  The initial
contents of the array and `any_class_type` are not set by the source and
are taken as arguments. -/
def lily_new_type_system (mem : Nat → lily_type) (any : lily_type) : lily_type_system :=
  { types := mem, pos := 0, max := 4, max_seen := 0, ceiling := 0, any_class_type := any }

/-- `grow_types`: double `max`; `realloc` keeps the old contents. -/
def grow_types (ts : lily_type_system) : lily_type_system :=
  { ts with max := ts.max * 2 }

/-- The macro `ENSURE_TYPE_STACK(new_size)`. -/
def ENSURE_TYPE_STACK (ts : lily_type_system) (new_size : Nat) : lily_type_system :=
  if new_size ≥ ts.max then grow_types ts else ts

/-- The loop `while (right != NULL)` of `lily_class_greater_eq`. -/
def class_walk (env : Registry) (left : Nat) : Nat → Option Nat → Res Bool
  | _, none => .ok false
  | 0, some _ => .error .out_of_fuel
  | fuel + 1, some r =>
      let right := (env.classes r).parent
      if right = some left then .ok true else class_walk env left fuel right

/-- `lily_class_greater_eq(left, right)`. -/
def lily_class_greater_eq (env : Registry) (fuel : Nat) (left right : Nat) : Res Bool :=
  if left ≠ right then class_walk env left fuel (some right) else .ok true

/-- `check_generic`, with `check_raw` passed in for the recursive call. -/
def check_generic
    (check_raw : lily_type_system → lily_type → lily_type → Nat → Res (Bool × lily_type_system))
    (ts : lily_type_system) (left right : lily_type) (flags : Nat) :
    Res (Bool × lily_type_system) :=
  if flags &&& T_DONT_SOLVE ≠ 0 then
    .ok (decide (left = right), ts)
  else
    match generic_pos_of left with
    | .error e => .error e
    | .ok gp =>
      let generic_pos := ts.pos + gp
      let cmp_type := ts.types generic_pos
      if cmp_type = .null then
        .ok (true, set_type ts generic_pos right)
      else if cmp_type = right then
        .ok (true, ts)
      else if flags &&& (T_COVARIANT ||| T_CONTRAVARIANT) ≠ 0 then
        check_raw ts cmp_type right (flags ||| T_DONT_SOLVE)
      else
        .ok (false, ts)

/-- The `for` loop of `check_enum`: `n` iterations remain, the index is `i`. -/
def check_enum_loop
    (check_raw : lily_type_system → lily_type → lily_type → Nat → Res (Bool × lily_type_system))
    (left right variant_output : lily_type) (flags : Nat) :
    Nat → Nat → lily_type_system → Res (Bool × lily_type_system)
  | 0, _, ts => .ok (true, ts)
  | n + 1, i, ts =>
      match subtype_at variant_output i with
      | .error e => .error e
      | .ok vs =>
      match generic_pos_of vs with
      | .error e => .error e
      | .ok pos =>
      match subtype_at left pos with
      | .error e => .error e
      | .ok l =>
      match subtype_at right i with
      | .error e => .error e
      | .ok r =>
      match check_raw ts l r flags with
      | .error e => .error e
      | .ok (ret, ts1) =>
        if ret = false then .ok (false, ts1)
        else check_enum_loop check_raw left right variant_output flags n (i + 1) ts1

/-- `check_enum`. -/
def check_enum (env : Registry)
    (check_raw : lily_type_system → lily_type → lily_type → Nat → Res (Bool × lily_type_system))
    (ts : lily_type_system) (left right : lily_type) (flags : Nat) :
    Res (Bool × lily_type_system) :=
  match cls_of right with
  | .error e => .error e
  | .ok rc =>
  let variant_type := (env.classes rc).variant_type
  match subtype_count variant_type with
  | .error e => .error e
  | .ok vcount =>
    if vcount ≠ 0 then
      let flags := flags &&& T_DONT_SOLVE
      match subtype_at variant_type 0 with
      | .error e => .error e
      | .ok variant_output =>
      match subtype_count variant_output with
      | .error e => .error e
      | .ok n => check_enum_loop check_raw left right variant_output flags n 0 ts
    else
      .ok (true, ts)

/-- The parameter loop of `check_function`: `n` iterations remain, the index
is `i`. -/
def check_function_loop (env : Registry)
    (check_raw : lily_type_system → lily_type → lily_type → Nat → Res (Bool × lily_type_system))
    (left right : lily_type) (flags : Nat) :
    Nat → Nat → lily_type_system → Res (Bool × lily_type_system)
  | 0, _, ts => .ok (true, ts)
  | n + 1, i, ts =>
      match subtype_at left i with
      | .error e => .error e
      | .ok left_type =>
      match subtype_at right i with
      | .error e => .error e
      | .ok right_type =>
      match cls_id env right_type with
      | .error e => .error e
      | .ok rid =>
      match (if rid = env.SYM_CLASS_OPTARG then
               (match cls_id env left_type with
                | .error e => .error e
                | .ok lid =>
                    if lid ≠ env.SYM_CLASS_OPTARG then subtype_at right_type 0
                    else .ok right_type)
             else .ok right_type : Res lily_type) with
      | .error e => .error e
      | .ok right_type =>
      match check_raw ts left_type right_type flags with
      | .error e => .error e
      | .ok (ret, ts1) =>
        if ret = false then .ok (false, ts1)
        else check_function_loop env check_raw left right flags n (i + 1) ts1

/-- `check_function`. -/
def check_function (env : Registry)
    (check_raw : lily_type_system → lily_type → lily_type → Nat → Res (Bool × lily_type_system))
    (ts : lily_type_system) (left right : lily_type) (flags : Nat) :
    Res (Bool × lily_type_system) :=
  let flags := flags &&& T_DONT_SOLVE
  match subtype_at left 0 with
  | .error e => .error e
  | .ok l0 =>
  match subtype_at right 0 with
  | .error e => .error e
  | .ok r0 =>
  match check_raw ts l0 r0 (flags ||| T_COVARIANT) with
  | .error e => .error e
  | .ok (r, ts1) =>
  match subtype_count left with
  | .error e => .error e
  | .ok lcount =>
  match subtype_count right with
  | .error e => .error e
  | .ok rcount =>
    let ret := if lcount > rcount then false else r
    if ret then
      check_function_loop env check_raw left right (flags ||| T_CONTRAVARIANT)
        (lcount - 1) 1 ts1
    else
      .ok (false, ts1)

/-- `invariant_check`: the result and `*num_subtypes`. -/
def invariant_check (left right : lily_type) : Res (Bool × Nat) :=
  match cls_of left with
  | .error e => .error e
  | .ok lc =>
  match cls_of right with
  | .error e => .error e
  | .ok rc =>
  match subtype_count left with
  | .error e => .error e
  | .ok n => .ok (decide (lc = rc), n)

/-- `covariant_check`: the result and `*num_subtypes`. -/
def covariant_check (env : Registry) (fuel : Nat) (left right : lily_type) : Res (Bool × Nat) :=
  match cls_of left with
  | .error e => .error e
  | .ok lc =>
  match cls_of right with
  | .error e => .error e
  | .ok rc =>
  match lily_class_greater_eq env fuel lc rc with
  | .error e => .error e
  | .ok ret =>
  match subtype_count left with
  | .error e => .error e
  | .ok n => .ok (ret, n)

/-- `contravariant_check`: the result and `*num_subtypes`. -/
def contravariant_check (env : Registry) (fuel : Nat) (left right : lily_type) :
    Res (Bool × Nat) :=
  match cls_of left with
  | .error e => .error e
  | .ok lc =>
  match cls_of right with
  | .error e => .error e
  | .ok rc =>
  match subtype_count left with
  | .error e => .error e
  | .ok lcount =>
  match subtype_count right with
  | .error e => .error e
  | .ok rcount =>
  match (if lc = rc then .ok (decide (lcount = rcount))
         else lily_class_greater_eq env fuel rc lc : Res Bool) with
  | .error e => .error e
  | .ok ret => .ok (ret, rcount)

/-- The `for` loop of `check_misc`: `n` iterations remain, the index is `i`. -/
def check_misc_loop
    (check_raw : lily_type_system → lily_type → lily_type → Nat → Res (Bool × lily_type_system))
    (left right : lily_type) (flags : Nat) :
    Nat → Nat → lily_type_system → Res (Bool × lily_type_system)
  | 0, _, ts => .ok (true, ts)
  | n + 1, i, ts =>
      match subtype_at left i with
      | .error e => .error e
      | .ok left_entry =>
      match subtype_at right i with
      | .error e => .error e
      | .ok right_entry =>
        if left_entry ≠ right_entry then
          match check_raw ts left_entry right_entry flags with
          | .error e => .error e
          | .ok (ret, ts1) =>
            if ret = false then .ok (false, ts1)
            else check_misc_loop check_raw left right flags n (i + 1) ts1
        else check_misc_loop check_raw left right flags n (i + 1) ts

/-- `check_misc`. -/
def check_misc (env : Registry) (fuel : Nat)
    (check_raw : lily_type_system → lily_type → lily_type → Nat → Res (Bool × lily_type_system))
    (ts : lily_type_system) (left right : lily_type) (flags : Nat) :
    Res (Bool × lily_type_system) :=
  match (if flags &&& T_COVARIANT ≠ 0 then covariant_check env fuel left right
         else if flags &&& T_CONTRAVARIANT ≠ 0 then contravariant_check env fuel left right
         else invariant_check left right : Res (Bool × Nat)) with
  | .error e => .error e
  | .ok (ret, num_subtypes) =>
    if ret = true ∧ num_subtypes ≠ 0 then
      check_misc_loop check_raw left right (flags &&& T_DONT_SOLVE) num_subtypes 0 ts
    else
      .ok (ret, ts)

/-- `check_raw`; each call consumes one unit of fuel. -/
def check_raw (env : Registry) :
    Nat → lily_type_system → lily_type → lily_type → Nat → Res (Bool × lily_type_system)
  | 0, _, _, _, _ => .error .out_of_fuel
  | fuel + 1, ts, left, right, flags =>
    if left = .null ∨ right = .null then
      .ok (decide (left = right), ts)
    else
      match cls_of left with
      | .error e => .error e
      | .ok lc =>
      match cls_of right with
      | .error e => .error e
      | .ok rc =>
        if (env.classes lc).id = env.SYM_CLASS_GENERIC then
          check_generic (check_raw env fuel) ts left right flags
        else if (env.classes lc).flags &&& env.CLS_IS_ENUM ≠ 0 ∧
                (env.classes rc).flags &&& env.CLS_IS_VARIANT ≠ 0 ∧
                (env.classes rc).parent = some lc then
          check_enum env (check_raw env fuel) ts left right flags
        else if (env.classes lc).id = env.SYM_CLASS_FUNCTION ∧
                (env.classes rc).id = env.SYM_CLASS_FUNCTION then
          check_function env (check_raw env fuel) ts left right flags
        else
          check_misc env fuel (check_raw env fuel) ts left right flags

/-- `lily_ts_check`. -/
def lily_ts_check (env : Registry) (fuel : Nat) (ts : lily_type_system)
    (left right : lily_type) : Res (Bool × lily_type_system) :=
  check_raw env fuel ts left right 0

/-- `lily_ts_type_greater_eq`. -/
def lily_ts_type_greater_eq (env : Registry) (fuel : Nat) (ts : lily_type_system)
    (left right : lily_type) : Res (Bool × lily_type_system) :=
  check_raw env fuel ts left right (T_DONT_SOLVE ||| T_COVARIANT)

/-- `lily_ts_enum_membership_check`. -/
def lily_ts_enum_membership_check (env : Registry) (fuel : Nat) (ts : lily_type_system)
    (enum_type variant_type : lily_type) : Res (Bool × lily_type_system) :=
  match cls_of variant_type with
  | .error e => .error e
  | .ok vc =>
  match cls_of enum_type with
  | .error e => .error e
  | .ok ec =>
    if (env.classes vc).parent = some ec then
      check_enum env (check_raw env fuel) ts enum_type variant_type T_DONT_SOLVE
    else
      .ok (false, ts)

/-- The clearing loop of `lily_ts_raise_ceiling`: `n` iterations remain, the
index is `i`. -/
def raise_clear : Nat → Nat → lily_type_system → lily_type_system
  | 0, _, ts => ts
  | n + 1, i, ts => raise_clear n (i + 1) (set_type ts (ts.pos + i) .null)

/-- `lily_ts_raise_ceiling`: the returned old ceiling and the new state. -/
def lily_ts_raise_ceiling (ts : lily_type_system) : Nat × lily_type_system :=
  let old_ceiling := ts.ceiling
  let ts := ENSURE_TYPE_STACK ts (ts.pos + ts.ceiling + ts.max_seen * 2)
  let ts := { ts with pos := ts.pos + ts.ceiling }
  let ts := { ts with ceiling := ts.max_seen }
  (old_ceiling, raise_clear ts.max_seen 0 ts)

/-- `lily_ts_lower_ceiling`.  `pos` is a natural number: the subtraction is
exact whenever `old_ceiling` comes from the matching raise. -/
def lily_ts_lower_ceiling (ts : lily_type_system) (old_ceiling : Nat) : lily_type_system :=
  { ts with pos := ts.pos - old_ceiling, ceiling := old_ceiling }

/-- The loop of `lily_ts_count_unresolved`: `n` iterations remain, the index
is `i`, the running count is `count`. -/
def count_loop (ts : lily_type_system) : Nat → Nat → Nat → Nat
  | 0, _, count => count
  | n + 1, i, count =>
      count_loop ts n (i + 1) (if ts.types i = .null then count + 1 else count)

/-- `lily_ts_count_unresolved`. -/
def lily_ts_count_unresolved (ts : lily_type_system) : Nat :=
  let top := ts.pos + ts.ceiling
  count_loop ts (top - ts.pos) ts.pos 0

/-- `lily_ts_generics_seen`. -/
def lily_ts_generics_seen (ts : lily_type_system) (amount : Nat) : lily_type_system :=
  if amount > ts.max_seen then { ts with max_seen := amount } else ts

/-- The value a run returns, when it returns one. -/
def ret_of (r : Res (Bool × lily_type_system)) : Option Bool :=
  match r with
  | .ok (b, _) => some b
  | .error _ => none

/-- The state a run leaves, when it returns. -/
def state_of (r : Res (Bool × lily_type_system)) : Option lily_type_system :=
  match r with
  | .ok (_, ts) => some ts
  | .error _ => none

mutual
/-- Height of a type tree; `check_raw` needs more fuel than this on the
trees it descends into. -/
def lily_type.depth : lily_type → Nat
  | .null => 0
  | .node _ _ _ s => lily_type.depthList s + 1
/-- Largest height among the entries of a subtypes array. -/
def lily_type.depthList : List lily_type → Nat
  | [] => 0
  | a :: as => Nat.max (lily_type.depth a) (lily_type.depthList as)
end

mutual
/-- A type is concrete when no node of its tree has the generic class. -/
def is_concrete (env : Registry) : lily_type → Bool
  | .null => true
  | .node c _ _ s =>
      decide ((env.classes c).id ≠ env.SYM_CLASS_GENERIC) && all_concrete env s
/-- Every entry of a subtypes array is concrete. -/
def all_concrete (env : Registry) : List lily_type → Bool
  | [] => true
  | a :: as => is_concrete env a && all_concrete env as
end

mutual
/-- Well-formed type graph: every function node has its return slot
(`subtypes[0]`, which may be `null`) and its parameters are not `null`. -/
def well_formed (env : Registry) : lily_type → Bool
  | .null => true
  | .node c _ _ s =>
      (decide ((env.classes c).id ≠ env.SYM_CLASS_FUNCTION) ||
        (decide (s ≠ []) && decide (∀ p ∈ s.tail, p ≠ lily_type.null))) &&
      all_well_formed env s
/-- Every entry of a subtypes array is well formed. -/
def all_well_formed (env : Registry) : List lily_type → Bool
  | [] => true
  | a :: as => well_formed env a && all_well_formed env as
end

/-! ## Vocabulary of the properties -/

/-- The generic position stored in a node (`0` for `null`). -/
def lily_type.gpos : lily_type → Nat
  | .null => 0
  | .node _ _ g _ => g

/-- The class reached by following `parent` links `n` times. -/
def nth_parent (env : Registry) : Nat → Option Nat → Option Nat
  | 0, c => c
  | _ + 1, none => none
  | n + 1, some c => nth_parent env n (env.classes c).parent

/-- Class `d` is a proper descendant of `a`: `a` is met after one or more
parent links from `d`. -/
def proper_descendant (env : Registry) (d a : Nat) : Prop :=
  ∃ n, nth_parent env (n + 1) (some d) = some a

/-- The parent chain above `c` is finite: it reaches a class with no parent. -/
def chain_ends (env : Registry) (c : Nat) : Prop :=
  ∃ n, nth_parent env n (some c) = none

/-- A plain class: not the generic, function or optional-argument class, and
neither an enum nor a variant. -/
def plain_class (env : Registry) (c : Nat) : Bool :=
  decide ((env.classes c).id ≠ env.SYM_CLASS_GENERIC) &&
  decide ((env.classes c).id ≠ env.SYM_CLASS_FUNCTION) &&
  decide ((env.classes c).id ≠ env.SYM_CLASS_OPTARG) &&
  decide ((env.classes c).flags &&& env.CLS_IS_ENUM = 0) &&
  decide ((env.classes c).flags &&& env.CLS_IS_VARIANT = 0)

/-- The function class: its id is `SYM_CLASS_FUNCTION`, which is not the id of
the generic class, and it is not an enum. -/
def function_class (env : Registry) (c : Nat) : Bool :=
  decide ((env.classes c).id = env.SYM_CLASS_FUNCTION) &&
  decide (env.SYM_CLASS_FUNCTION ≠ env.SYM_CLASS_GENERIC) &&
  decide ((env.classes c).flags &&& env.CLS_IS_ENUM = 0)

/-- A generic placeholder: a node whose class has id `SYM_CLASS_GENERIC`. -/
def is_generic (env : Registry) : lily_type → Bool
  | .null => false
  | .node c _ _ _ => decide ((env.classes c).id = env.SYM_CLASS_GENERIC)

/-- A sequence of writes `ts->types[i] = v`. -/
def apply_writes (ts : lily_type_system) (ws : List (Nat × lily_type)) : lily_type_system :=
  ws.foldl (fun t w => set_type t w.1 w.2) ts

/-! ## A small class table used for the concrete instances

Addresses: `0` Integer, `2` String, `5` Function, `9` the optional-argument
class, `11` the generic class, `20` Animal, `21` Dog (parent Animal),
`30` the enum Option, `31` its variant Some, `32` its variant None. -/

/-- Generic placeholder `A` (position 0) of the example table. -/
def zoo_A : lily_type := .node 11 0 0 []

/-- The `variant_type` of `Some`: `function (A => Some[A])`. -/
def zoo_some_variant_type : lily_type := .node 5 0 0 [.node 31 0 0 [zoo_A], zoo_A]

/-- The class table of the examples. -/
def zoo_classes (c : Nat) : lily_class :=
  if c = 21 then { id := 21, flags := 0, parent := some 20, variant_type := .null }
  else if c = 30 then { id := 30, flags := 1, parent := none, variant_type := .null }
  else if c = 31 then
    { id := 31, flags := 2, parent := some 30, variant_type := zoo_some_variant_type }
  else if c = 32 then
    { id := 32, flags := 2, parent := some 30, variant_type := .node 32 0 0 [] }
  else { id := c, flags := 0, parent := none, variant_type := .null }

/-- The registry of the examples. -/
def zoo : Registry where
  classes := zoo_classes
  SYM_CLASS_GENERIC := 11
  SYM_CLASS_FUNCTION := 5
  SYM_CLASS_OPTARG := 9
  CLS_IS_ENUM := 1
  CLS_IS_VARIANT := 2

def zoo_Integer : lily_type := .node 0 0 0 []

def zoo_String : lily_type := .node 2 0 0 []

def zoo_Animal : lily_type := .node 20 0 0 []

def zoo_Dog : lily_type := .node 21 0 0 []

/-- The function type `function (params => ret)` of the example table. -/
def zoo_fn (ret : lily_type) (params : List lily_type) : lily_type :=
  .node 5 0 0 (ret :: params)

/-- A type system with an empty frame of two slots. -/
def zoo_ts : lily_type_system :=
  { types := fun _ => .null, pos := 0, max := 4, max_seen := 2, ceiling := 2,
    any_class_type := .node 6 0 0 [] }

/-- The same frame with slot 0 bound to Integer. -/
def zoo_ts_int : lily_type_system := set_type zoo_ts 0 zoo_Integer

/-! ## The resolver

A node without subtypes has `subtypes == NULL` in the source, so the test
`type->subtypes != NULL` is modelled as `subtypes ≠ []`. -/

/-- Modelled from the spec: the Type Factory `lily_type_maker`, whose source
is not part of this file.  `build flags cls subtypes` is the type that the
factory hands back for these arguments and `calls` counts how often it was
invoked. -/
structure lily_type_maker where
  build : Nat → Nat → List lily_type → lily_type
  calls : Nat

/-- The slice `types[offset], ..., types[offset + count - 1]`. -/
def read_types (types : Nat → lily_type) : Nat → Nat → List lily_type
  | _, 0 => []
  | offset, count + 1 => types offset :: read_types types (offset + 1) count

/-- Modelled from the spec: `lily_tm_raw_make(tm, flags, cls, types, offset,
count)`, the factory call `build(class, subtypes, flags)` on the slice of
`count` types starting at `offset`. -/
def lily_tm_raw_make (tm : lily_type_maker) (flags cls : Nat) (types : Nat → lily_type)
    (offset count : Nat) : lily_type × lily_type_maker :=
  (tm.build flags cls (read_types types offset count), { tm with calls := tm.calls + 1 })

mutual
/-- `deep_type_build(ts, generic_index, type)`: the result, the state and the
type maker afterwards. -/
def deep_type_build (env : Registry) (generic_index : Nat) :
    lily_type → lily_type_system → lily_type_maker →
      lily_type × lily_type_system × lily_type_maker
  | .null, ts, tm => (.null, ts, tm)
  | .node c f g subtypes, ts, tm =>
      if subtypes ≠ [] then
        let ts0 := ENSURE_TYPE_STACK ts (ts.pos + subtypes.length)
        let save_start := ts0.pos
        let r := deep_type_build_loop env generic_index subtypes ts0 tm
        let i := subtypes.length
        let m := lily_tm_raw_make r.2 f c r.1.types save_start i
        (m.1, { r.1 with pos := r.1.pos - i }, m.2)
      else if (env.classes c).id = env.SYM_CLASS_GENERIC then
        let ret := ts.types (generic_index + g)
        if ret = .null then
          (ts.any_class_type, set_type ts (generic_index + g) ts.any_class_type, tm)
        else
          (ret, ts, tm)
      else
        (.node c f g subtypes, ts, tm)
/-- The `for` loop of `deep_type_build` over the subtypes still to visit. -/
def deep_type_build_loop (env : Registry) (generic_index : Nat) :
    List lily_type → lily_type_system → lily_type_maker →
      lily_type_system × lily_type_maker
  | [], ts, tm => (ts, tm)
  | t :: rest, ts, tm =>
      let r := deep_type_build env generic_index t ts tm
      let ts1 := set_type r.2.1 r.2.1.pos r.1
      let ts2 := { ts1 with pos := ts1.pos + 1 }
      deep_type_build_loop env generic_index rest ts2 r.2.2
end

/-- `lily_ts_resolve`. -/
def lily_ts_resolve (env : Registry) (ts : lily_type_system) (tm : lily_type_maker)
    (type : lily_type) : lily_type × lily_type_system × lily_type_maker :=
  let save_generic_index := ts.pos
  let ts1 := { ts with pos := ts.pos + ts.ceiling }
  let r := deep_type_build env save_generic_index type ts1 tm
  (r.1, { r.2.1 with pos := r.2.1.pos - r.2.1.ceiling }, r.2.2)

/-- The staging loop of `lily_ts_resolve_by_second` over the subtypes still
to copy; the index is `i`. -/
def stage_loop (stack_start : Nat) : List lily_type → Nat → lily_type_system → lily_type_system
  | [], _, ts => ts
  | t :: rest, i, ts => stage_loop stack_start rest (i + 1) (set_type ts (stack_start + i) t)

/-- `lily_ts_resolve_by_second`. -/
def lily_ts_resolve_by_second (env : Registry) (ts : lily_type_system) (tm : lily_type_maker)
    (first second : lily_type) : Res (lily_type × lily_type_system × lily_type_maker) :=
  match first with
  | .null => .error .null_deref
  | .node _ _ _ first_subtypes =>
    let stack_start := ts.pos + ts.ceiling + 1
    let save_ssp := ts.pos
    let ts1 := ENSURE_TYPE_STACK ts (stack_start + first_subtypes.length)
    let ts2 := stage_loop stack_start first_subtypes 0 ts1
    let ts3 := { ts2 with pos := stack_start }
    let r := lily_ts_resolve env ts3 tm second
    .ok (r.1, { r.2.1 with pos := save_ssp }, r.2.2)

/-- The loop of `lily_ts_resolve_as_variant_by_enum`: `n` iterations remain. -/
def variant_by_enum_loop (variant_type enum_type : lily_type) :
    Nat → lily_type_system → Res lily_type_system
  | 0, ts => .ok ts
  | n + 1, ts =>
      match subtype_at variant_type 0 with
      | .error e => .error e
      | .ok v0 =>
      match generic_pos_of v0 with
      | .error e => .error e
      | .ok pos =>
      match subtype_at enum_type pos with
      | .error e => .error e
      | .ok t => variant_by_enum_loop variant_type enum_type n (set_type ts (ts.pos + pos) t)

/-- `lily_ts_resolve_as_variant_by_enum`. -/
def lily_ts_resolve_as_variant_by_enum (env : Registry) (ts : lily_type_system)
    (call_result enum_type : lily_type) : Res lily_type_system :=
  match cls_of call_result with
  | .error e => .error e
  | .ok rc =>
  match subtype_at (env.classes rc).variant_type 0 with
  | .error e => .error e
  | .ok variant_type =>
  match subtype_count call_result with
  | .error e => .error e
  | .ok max => variant_by_enum_loop variant_type enum_type max ts

/-! ## Vocabulary of the resolver properties -/

/-- The value a generic of position `k` resolves to when the frame starts at
`generic_index`: the slot, or `any_class_type` when the slot is absent. -/
def slot_value (ts : lily_type_system) (generic_index k : Nat) : lily_type :=
  if ts.types (generic_index + k) = .null then ts.any_class_type
  else ts.types (generic_index + k)

mutual
/-- Substitution as the spec words it: every placeholder of position `k` is
replaced by `σ k`, composite nodes are rebuilt by the factory `mk` with the
same class and flags, absent stays absent. -/
def substitute (env : Registry) (mk : Nat → Nat → List lily_type → lily_type)
    (σ : Nat → lily_type) : lily_type → lily_type
  | .null => .null
  | .node c f g subtypes =>
      if subtypes ≠ [] then mk f c (substitute_all env mk σ subtypes)
      else if (env.classes c).id = env.SYM_CLASS_GENERIC then σ g
      else .node c f g subtypes
/-- Substitution in every entry of a subtypes array. -/
def substitute_all (env : Registry) (mk : Nat → Nat → List lily_type → lily_type)
    (σ : Nat → lily_type) : List lily_type → List lily_type
  | [] => []
  | t :: rest => substitute env mk σ t :: substitute_all env mk σ rest
end

mutual
/-- Every node of the generic class is a leaf whose position is below `n`. -/
def generics_below (env : Registry) (n : Nat) : lily_type → Bool
  | .null => true
  | .node c _ g subtypes =>
      (decide ((env.classes c).id ≠ env.SYM_CLASS_GENERIC) ||
        (decide (subtypes = []) && decide (g < n))) &&
      all_generics_below env n subtypes
/-- Every entry of a subtypes array satisfies `generics_below`. -/
def all_generics_below (env : Registry) (n : Nat) : List lily_type → Bool
  | [] => true
  | t :: rest => generics_below env n t && all_generics_below env n rest
end

mutual
/-- The number of nodes of a type that have subtypes. -/
def composite_count : lily_type → Nat
  | .null => 0
  | .node _ _ _ subtypes =>
      (if subtypes ≠ [] then 1 else 0) + composite_count_all subtypes
/-- The number of nodes with subtypes in a subtypes array. -/
def composite_count_all : List lily_type → Nat
  | [] => 0
  | t :: rest => composite_count t + composite_count_all rest
end

mutual
/-- A type is interned by the factory `mk`: for each of its nodes with
subtypes, `mk` on the flags, class and subtypes of the node is that node. -/
def interned (mk : Nat → Nat → List lily_type → lily_type) : lily_type → Bool
  | .null => true
  | .node c f g subtypes =>
      (decide (subtypes = []) || decide (mk f c subtypes = .node c f g subtypes)) &&
      all_interned mk subtypes
/-- Every entry of a subtypes array is interned. -/
def all_interned (mk : Nat → Nat → List lily_type → lily_type) : List lily_type → Bool
  | [] => true
  | t :: rest => interned mk t && all_interned mk rest
end

/-! ## Further concrete instances -/

/-- A type maker that interns: the node of the given class, flags and
subtypes, no call made so far. -/
def zoo_tm : lily_type_maker := { build := fun f c s => .node c f 0 s, calls := 0 }

/-- Placeholder `B` (position 1) of the example table. -/
def zoo_B : lily_type := .node 11 0 1 []

/-- A state with eight slots allocated, no active frame and `max_seen = 3`. -/
def zoo_ts_wide : lily_type_system :=
  { types := fun _ => .null, pos := 0, max := 8, max_seen := 3, ceiling := 0,
    any_class_type := .node 6 0 0 [] }

/-- A fresh type system after `lily_ts_generics_seen(10)`. -/
def zoo_ts_fresh : lily_type_system :=
  lily_ts_generics_seen (lily_new_type_system (fun _ => .null) (.node 6 0 0 [])) 10

/-- The table `zoo` extended by the enum `Either[A, B]` at address 40 and its
variant `Both(A, B)` at address 41, whose `variant_type` is
`function (A, B => Both[A, B])`. -/
def duo_classes (c : Nat) : lily_class :=
  if c = 40 then { id := 40, flags := 1, parent := none, variant_type := .null }
  else if c = 41 then
    { id := 41, flags := 2, parent := some 40,
      variant_type := .node 5 0 0 [.node 41 0 0 [zoo_A, zoo_B], zoo_A, zoo_B] }
  else zoo_classes c

/-- The registry of the two-payload example. -/
def duo : Registry := { zoo with classes := duo_classes }

/-- The state `ts1` differs from `ts` at most by absent slots that became
bound: `pos`, `ceiling`, `max` and `max_seen` are equal and every slot is
either unchanged or was absent and is bound now. -/
def only_binds (ts ts1 : lily_type_system) : Prop :=
  ts1.pos = ts.pos ∧ ts1.ceiling = ts.ceiling ∧ ts1.max = ts.max ∧
  ts1.max_seen = ts.max_seen ∧
  ∀ j, ts1.types j = ts.types j ∨ (ts.types j = .null ∧ ts1.types j ≠ .null)

/-- Slots 0 and 1 of the state a run leaves, when it returns. -/
def first_slots (r : Res lily_type_system) : Option (lily_type × lily_type) :=
  match r with
  | .ok ts => some (ts.types 0, ts.types 1)
  | .error _ => none

/-- What the resolver may change below the index `base` when the frame of
`n` slots starts at `gi`: `ceiling`, `max_seen` and `any_class_type` are kept,
`max` does not shrink, and a slot below `base` is unchanged or was absent,
lies in the frame and holds `any_class_type` now. -/
def frame_kept (gi n base : Nat) (ts ts1 : lily_type_system) : Prop :=
  ts1.ceiling = ts.ceiling ∧ ts1.max_seen = ts.max_seen ∧
  ts1.any_class_type = ts.any_class_type ∧ ts.max ≤ ts1.max ∧
  ∀ j, j < base → ts1.types j = ts.types j ∨
    (ts.types j = .null ∧ ts1.types j = ts.any_class_type ∧ gi ≤ j ∧ j < gi + n)

mutual
/-- A placeholder of position `k` occurs in the type (as a leaf of the
generic class). -/
def mentions (env : Registry) (k : Nat) : lily_type → Bool
  | .null => false
  | .node c _ g subtypes =>
      (decide (subtypes = []) && decide ((env.classes c).id = env.SYM_CLASS_GENERIC) &&
        decide (g = k)) || mentions_any env k subtypes
/-- A placeholder of position `k` occurs in some entry of a subtypes array. -/
def mentions_any (env : Registry) (k : Nat) : List lily_type → Bool
  | [] => false
  | t :: rest => mentions env k t || mentions_any env k rest
end

/-- The type a resolver run returns, when it returns. -/
def result_of (r : Res (lily_type × lily_type_system × lily_type_maker)) : Option lily_type :=
  match r with
  | .ok x => some x.1
  | .error _ => none

/-- The frame of `zoo_ts` with `A` bound to Integer and `B` to String. -/
def zoo_ts_both : lily_type_system := set_type zoo_ts_int 1 zoo_String

/-- The class-level check of `check_misc`: the variance test selected by
`flags`, with its result and `num_subtypes`. -/
def class_level_check (env : Registry) (fuel : Nat) (left right : lily_type) (flags : Nat) :
    Res (Bool × Nat) :=
  if flags &&& T_COVARIANT ≠ 0 then covariant_check env fuel left right
  else if flags &&& T_CONTRAVARIANT ≠ 0 then contravariant_check env fuel left right
  else invariant_check left right

/-- Comparison of subtype pairs as the amended claim words it: the pairs are
taken in order, an identical pair is skipped, every other pair is compared
by `check` with `flags`, and the first comparison that fails makes the whole
comparison fail. -/
def compare_pairs
    (check : lily_type_system → lily_type → lily_type → Nat → Res (Bool × lily_type_system))
    (flags : Nat) : List (lily_type × lily_type) → lily_type_system →
      Res (Bool × lily_type_system)
  | [], ts => .ok (true, ts)
  | p :: rest, ts =>
      if p.1 = p.2 then compare_pairs check flags rest ts
      else
        match check ts p.1 p.2 flags with
        | .error e => .error e
        | .ok (false, ts1) => .ok (false, ts1)
        | .ok (true, ts1) => compare_pairs check flags rest ts1

/-! ## Reading fields of a node -/

@[simp] theorem cls_of_node (c f g : Nat) (s : List lily_type) :
    cls_of (.node c f g s) = .ok c := rfl

@[simp] theorem generic_pos_of_node (c f g : Nat) (s : List lily_type) :
    generic_pos_of (.node c f g s) = .ok g := rfl

@[simp] theorem subtype_count_node (c f g : Nat) (s : List lily_type) :
    subtype_count (.node c f g s) = .ok s.length := rfl

theorem subtype_at_node (c f g : Nat) (s : List lily_type) (i : Nat) (h : i < s.length) :
    subtype_at (.node c f g s) i = .ok s[i] := by
  simp [subtype_at, List.getElem?_eq_getElem h]

@[simp] theorem cls_id_node (env : Registry) (c f g : Nat) (s : List lily_type) :
    cls_id env (.node c f g s) = .ok (env.classes c).id := rfl

theorem depth_le_of_mem {t : lily_type} :
    ∀ {s : List lily_type}, t ∈ s → t.depth ≤ lily_type.depthList s
  | a :: as, h => by
      rcases List.mem_cons.mp h with h | h
      · subst h
        simp only [lily_type.depthList]
        exact Nat.le_max_left _ _
      · simp only [lily_type.depthList]
        exact le_trans (depth_le_of_mem h) (Nat.le_max_right _ _)

theorem depth_lt_node {t : lily_type} {c f g : Nat} {s : List lily_type} (h : t ∈ s) :
    t.depth < (lily_type.node c f g s).depth := by
  simp only [lily_type.depth]
  exact Nat.lt_succ_of_le (depth_le_of_mem h)

theorem all_concrete_mem {env : Registry} {t : lily_type} :
    ∀ {s : List lily_type}, all_concrete env s = true → t ∈ s → is_concrete env t = true
  | a :: as, hs, h => by
      simp only [all_concrete, Bool.and_eq_true] at hs
      rcases List.mem_cons.mp h with h | h
      · subst h; exact hs.1
      · exact all_concrete_mem hs.2 h

theorem all_well_formed_mem {env : Registry} {t : lily_type} :
    ∀ {s : List lily_type}, all_well_formed env s = true → t ∈ s → well_formed env t = true
  | a :: as, hs, h => by
      simp only [all_well_formed, Bool.and_eq_true] at hs
      rcases List.mem_cons.mp h with h | h
      · subst h; exact hs.1
      · exact all_well_formed_mem hs.2 h

/-! ## Reflexivity on concrete types -/

theorem check_misc_loop_same
    (rec : lily_type_system → lily_type → lily_type → Nat → Res (Bool × lily_type_system))
    (c f g : Nat) (s : List lily_type) (flags : Nat) (ts : lily_type_system) :
    ∀ (n i : Nat), i + n ≤ s.length →
      check_misc_loop rec (.node c f g s) (.node c f g s) flags n i ts = .ok (true, ts)
  | 0, _, _ => rfl
  | n + 1, i, h => by
      have hi : i < s.length := by omega
      simp only [check_misc_loop, subtype_at_node c f g s i hi, ne_eq, not_true_eq_false,
        if_false]
      exact check_misc_loop_same rec c f g s flags ts n (i + 1) (by omega)

theorem check_function_loop_agree (env : Registry)
    (rec : lily_type_system → lily_type → lily_type → Nat → Res (Bool × lily_type_system))
    (left right : lily_type) (flags : Nat) (ts : lily_type_system) :
    ∀ (n i : Nat),
      (∀ j, i ≤ j → j < i + n → ∃ t, subtype_at left j = .ok t ∧ subtype_at right j = .ok t ∧
        t ≠ lily_type.null ∧ rec ts t t flags = .ok (true, ts)) →
      check_function_loop env rec left right flags n i ts = .ok (true, ts)
  | 0, _, _ => rfl
  | n + 1, i, hall => by
      obtain ⟨t, hl, hr, hnn, hrec⟩ := hall i (le_refl i) (by omega)
      simp only [check_function_loop, hl, hr]
      cases t with
      | null => exact absurd rfl hnn
      | node c2 f2 g2 s2 =>
        simp only [cls_id_node]
        by_cases ho : (env.classes c2).id = env.SYM_CLASS_OPTARG
        · simp only [ho, if_true, ne_eq, not_true_eq_false, if_false, hrec]
          simp only [Bool.true_eq_false, if_false]
          exact check_function_loop_agree env rec left right flags ts n (i + 1)
            (fun j hij hj => hall j (by omega) (by omega))
        · simp only [ho, if_false, hrec]
          simp only [Bool.true_eq_false, if_false]
          exact check_function_loop_agree env rec left right flags ts n (i + 1)
            (fun j hij hj => hall j (by omega) (by omega))

theorem lily_class_greater_eq_self (env : Registry) (fuel c : Nat) :
    lily_class_greater_eq env fuel c c = .ok true := by
  simp [lily_class_greater_eq]

theorem check_misc_same (env : Registry) (fuel : Nat)
    (rec : lily_type_system → lily_type → lily_type → Nat → Res (Bool × lily_type_system))
    (c f g : Nat) (s : List lily_type) (flags : Nat) (ts : lily_type_system) :
    check_misc env fuel rec ts (.node c f g s) (.node c f g s) flags = .ok (true, ts) := by
  have hloop := check_misc_loop_same rec c f g s (flags &&& T_DONT_SOLVE) ts s.length 0
    (by omega)
  have hsel : (if flags &&& T_COVARIANT ≠ 0 then
        covariant_check env fuel (.node c f g s) (.node c f g s)
      else if flags &&& T_CONTRAVARIANT ≠ 0 then
        contravariant_check env fuel (.node c f g s) (.node c f g s)
      else invariant_check (.node c f g s) (.node c f g s) : Res (Bool × Nat)) =
      .ok (true, s.length) := by
    have h1 : covariant_check env fuel (.node c f g s) (.node c f g s) =
        .ok (true, s.length) := by
      simp [covariant_check, lily_class_greater_eq_self]
    have h2 : contravariant_check env fuel (.node c f g s) (.node c f g s) =
        .ok (true, s.length) := by
      simp [contravariant_check]
    have h3 : invariant_check (.node c f g s) (.node c f g s) = .ok (true, s.length) := by
      simp [invariant_check]
    rw [h1, h2, h3]
    split
    · rfl
    · split <;> rfl
  unfold check_misc
  rw [hsel]
  by_cases hl : s.length = 0
  · simp [hl]
  · simp only [ne_eq, hl, not_false_eq_true, and_self, if_true]
    exact hloop

theorem check_raw_same (env : Registry)
    (hpar : ∀ c, (env.classes c).parent ≠ some c) :
    ∀ (fuel : Nat) (A : lily_type), A.depth < fuel → is_concrete env A = true →
      well_formed env A = true → ∀ (ts : lily_type_system) (flags : Nat),
      check_raw env fuel ts A A flags = .ok (true, ts)
  | 0, _, h, _, _, _, _ => absurd h (Nat.not_lt_zero _)
  | fuel + 1, .null, _, _, _, ts, flags => by simp [check_raw]
  | fuel + 1, .node c f g s, hd, hc, hw, ts, flags => by
      have ih := check_raw_same env hpar fuel
      simp only [is_concrete, Bool.and_eq_true, decide_eq_true_eq] at hc
      simp only [well_formed, Bool.and_eq_true, Bool.or_eq_true, decide_eq_true_eq] at hw
      have hsub : ∀ t ∈ s, ∀ (ts : lily_type_system) (flags : Nat),
          check_raw env fuel ts t t flags = .ok (true, ts) := fun t ht =>
        ih t (by have := @depth_lt_node t c f g s ht; omega)
          (all_concrete_mem hc.2 ht) (all_well_formed_mem hw.2 ht)
      have hnn : ¬ (lily_type.node c f g s = lily_type.null ∨
          lily_type.node c f g s = lily_type.null) := by simp
      simp only [check_raw, hnn, if_false, cls_of_node, hc.1, hpar c, and_false]
      by_cases hfn : (env.classes c).id = env.SYM_CLASS_FUNCTION
      · simp only [hfn, and_self, if_true]
        rcases hw.1 with h | ⟨hne, hps⟩
        · exact absurd hfn h
        · cases s with
          | nil => exact absurd rfl hne
          | cons r ps =>
            have h0 : (0 : Nat) < (r :: ps).length := by simp
            simp only [check_function, subtype_at_node c f g (r :: ps) 0 h0,
              List.getElem_cons_zero, hsub r (List.mem_cons_self _ _), subtype_count_node,
              gt_iff_lt, lt_self_iff_false, if_false, if_true]
            apply check_function_loop_agree
            intro j hij hj
            have hjl : j < (r :: ps).length := by
              simp only [List.length_cons] at hj ⊢; omega
            have hmem : (r :: ps)[j] ∈ (r :: ps) := List.getElem_mem _
            refine ⟨(r :: ps)[j], subtype_at_node c f g _ j hjl, subtype_at_node c f g _ j hjl,
              ?_, hsub _ hmem _ _⟩
            cases j with
            | zero => omega
            | succ k =>
              simp only [List.getElem_cons_succ]
              exact hps _ (by simp [List.getElem_mem])
      · simp only [hfn, and_self, if_false]
        exact check_misc_same env fuel _ c f g s flags ts

theorem zoo_no_self_parent : ∀ c, (zoo.classes c).parent ≠ some c := by
  intro c
  simp only [zoo, zoo_classes]
  split_ifs <;> simp <;> omega

/-- C1: reflexivity of `check` on concrete types.  For every concrete,
well-formed type `A` (no node of the generic class; function nodes have a
return slot, possibly `null`, and non-null parameters), in a class table
where no class is its own parent, and for every state of the binding stack,
`lily_ts_check(A, A)` returns true and leaves the state as it was, as soon
as the fuel exceeds the height of `A`. -/
theorem check_reflexive_on_concrete (env : Registry)
    (hpar : ∀ c, (env.classes c).parent ≠ some c)
    (A : lily_type) (hc : is_concrete env A = true) (hw : well_formed env A = true)
    (ts : lily_type_system) (fuel : Nat) (hfuel : A.depth < fuel) :
    lily_ts_check env fuel ts A A = .ok (true, ts) :=
  check_raw_same env hpar fuel A hfuel hc hw ts 0

/-- Instance of C1: a function type with no return value, an optional
argument and a class parameter, against a frame with a bound slot. -/
theorem check_reflexive_on_concrete_witness :
    is_concrete zoo (zoo_fn .null [.node 9 0 0 [zoo_Integer], zoo_Animal]) = true ∧
    well_formed zoo (zoo_fn .null [.node 9 0 0 [zoo_Integer], zoo_Animal]) = true ∧
    lily_ts_check zoo 4 zoo_ts_int
      (zoo_fn .null [.node 9 0 0 [zoo_Integer], zoo_Animal])
      (zoo_fn .null [.node 9 0 0 [zoo_Integer], zoo_Animal]) = .ok (true, zoo_ts_int) :=
  ⟨by decide, by decide,
    check_reflexive_on_concrete zoo zoo_no_self_parent _ (by decide) (by decide)
      zoo_ts_int 4 (by decide)⟩

/-! ## Binding a generic -/

theorem is_generic_node {env : Registry} {g : lily_type} (hg : is_generic env g = true) :
    ∃ c f gp s, g = .node c f gp s ∧ (env.classes c).id = env.SYM_CLASS_GENERIC := by
  cases g with
  | null => simp [is_generic] at hg
  | node c f gp s => exact ⟨c, f, gp, s, rfl, by simpa [is_generic] using hg⟩

theorem check_raw_generic (env : Registry) (fuel : Nat) (ts : lily_type_system)
    (g T : lily_type) (flags : Nat) (hg : is_generic env g = true) (hT : T ≠ .null) :
    check_raw env (fuel + 1) ts g T flags =
      check_generic (check_raw env fuel) ts g T flags := by
  obtain ⟨c, f, gp, s, rfl, hid⟩ := is_generic_node hg
  cases T with
  | null => exact absurd rfl hT
  | node c2 f2 g2 s2 => simp [check_raw, hid]

/-- C2: binding and idempotence.  For a generic placeholder `g` whose slot
`pos + g.generic_pos` is absent and a non-absent type `T`, `lily_ts_check(g, T)`
returns true and writes `T` into exactly that slot (every other slot, `pos`,
`ceiling`, `max` and `max_seen` are unchanged); a second `lily_ts_check(g, T)`
on the resulting state returns true and leaves that state unchanged. -/
theorem generic_binding_idempotent (env : Registry) (fuel : Nat) (hfuel : 0 < fuel)
    (ts : lily_type_system) (g T : lily_type) (hg : is_generic env g = true)
    (hslot : ts.types (ts.pos + g.gpos) = .null) (hT : T ≠ .null) :
    ∃ ts1, lily_ts_check env fuel ts g T = .ok (true, ts1) ∧
      ts1.types (ts.pos + g.gpos) = T ∧
      (∀ j, j ≠ ts.pos + g.gpos → ts1.types j = ts.types j) ∧
      ts1.pos = ts.pos ∧ ts1.ceiling = ts.ceiling ∧ ts1.max = ts.max ∧
      ts1.max_seen = ts.max_seen ∧
      lily_ts_check env fuel ts1 g T = .ok (true, ts1) := by
  obtain ⟨k, rfl⟩ : ∃ k, fuel = k + 1 := ⟨fuel - 1, by omega⟩
  refine ⟨set_type ts (ts.pos + g.gpos) T, ?_, ?_, ?_, rfl, rfl, rfl, rfl, ?_⟩
  · rw [lily_ts_check, check_raw_generic env k ts g T 0 hg hT]
    obtain ⟨c, f, gp, s, rfl, _⟩ := is_generic_node hg
    simp only [lily_type.gpos] at hslot
    simp [check_generic, T_DONT_SOLVE, hslot, lily_type.gpos]
  · simp [set_type]
  · intro j hj
    simp [set_type, hj]
  · rw [lily_ts_check, check_raw_generic env k _ g T 0 hg hT]
    obtain ⟨c, f, gp, s, rfl, _⟩ := is_generic_node hg
    simp [check_generic, T_DONT_SOLVE, set_type, lily_type.gpos, hT]

/-- Instance of C2: placeholder `A` against Integer in an empty frame. -/
theorem generic_binding_idempotent_witness :
    ∃ ts1, lily_ts_check zoo 1 zoo_ts zoo_A zoo_Integer = .ok (true, ts1) ∧
      ts1.types (zoo_ts.pos + zoo_A.gpos) = zoo_Integer ∧
      (∀ j, j ≠ zoo_ts.pos + zoo_A.gpos → ts1.types j = zoo_ts.types j) ∧
      ts1.pos = zoo_ts.pos ∧ ts1.ceiling = zoo_ts.ceiling ∧ ts1.max = zoo_ts.max ∧
      ts1.max_seen = zoo_ts.max_seen ∧
      lily_ts_check zoo 1 ts1 zoo_A zoo_Integer = .ok (true, ts1) :=
  generic_binding_idempotent zoo 1 (by decide) zoo_ts zoo_A zoo_Integer (by decide)
    (by decide) (by decide)

/-- C3: binding conflict.  For a generic placeholder `g` whose slot already
holds a type `X` and a non-absent type `Y` different from `X`,
`lily_ts_check(g, Y)` returns false; the state is returned unchanged, so the
slot still holds `X`. -/
theorem generic_binding_conflict (env : Registry) (fuel : Nat) (hfuel : 0 < fuel)
    (ts : lily_type_system) (g X Y : lily_type) (hg : is_generic env g = true)
    (hslot : ts.types (ts.pos + g.gpos) = X) (hX : X ≠ .null) (hY : Y ≠ .null)
    (hXY : Y ≠ X) :
    ∃ ts1, lily_ts_check env fuel ts g Y = .ok (false, ts1) ∧ ts1 = ts ∧
      ts1.types (ts.pos + g.gpos) = X := by
  obtain ⟨k, rfl⟩ : ∃ k, fuel = k + 1 := ⟨fuel - 1, by omega⟩
  refine ⟨ts, ?_, rfl, hslot⟩
  rw [lily_ts_check, check_raw_generic env k ts g Y 0 hg hY]
  obtain ⟨c, f, gp, s, rfl, _⟩ := is_generic_node hg
  simp only [lily_type.gpos] at hslot
  subst hslot
  simp [check_generic, T_DONT_SOLVE, T_COVARIANT, T_CONTRAVARIANT, hX, Ne.symm hXY]

/-- Instance of C3: `A` is bound to Integer and is matched against String. -/
theorem generic_binding_conflict_witness :
    ∃ ts1, lily_ts_check zoo 1 zoo_ts_int zoo_A zoo_String = .ok (false, ts1) ∧
      ts1 = zoo_ts_int ∧ ts1.types (zoo_ts_int.pos + zoo_A.gpos) = zoo_Integer :=
  generic_binding_conflict zoo 1 (by decide) zoo_ts_int zoo_A zoo_Integer zoo_String
    (by decide) (by decide) (by decide) (by decide) (by decide)

/-! ## The parent walk -/

theorem nth_parent_none (env : Registry) : ∀ n, nth_parent env n none = none
  | 0 => rfl
  | _ + 1 => rfl

theorem nth_parent_add (env : Registry) :
    ∀ (i j : Nat) (c : Option Nat),
      nth_parent env (i + j) c = nth_parent env j (nth_parent env i c)
  | 0, j, c => by simp [nth_parent]
  | i + 1, j, none => by
      rw [nth_parent_none, nth_parent_none, nth_parent_none]
  | i + 1, j, some c => by
      have h : i + 1 + j = (i + j) + 1 := by omega
      rw [h]
      simp only [nth_parent]
      exact nth_parent_add env i j _

theorem class_walk_found (env : Registry) (a : Nat) :
    ∀ (n d : Nat), nth_parent env (n + 1) (some d) = some a →
      ∀ fuel, n + 1 ≤ fuel → class_walk env a fuel (some d) = .ok true
  | 0, d, h, fuel, hf => by
      obtain ⟨k, rfl⟩ : ∃ k, fuel = k + 1 := ⟨fuel - 1, by omega⟩
      simp only [nth_parent] at h
      simp [class_walk, h]
  | n + 1, d, h, fuel, hf => by
      obtain ⟨k, rfl⟩ : ∃ k, fuel = k + 1 := ⟨fuel - 1, by omega⟩
      simp only [class_walk]
      by_cases hp : (env.classes d).parent = some a
      · simp [hp]
      · simp only [hp, if_false]
        cases hq : (env.classes d).parent with
        | none =>
          rw [nth_parent, hq, nth_parent_none] at h
          exact absurd h (by simp)
        | some d2 =>
          rw [nth_parent, hq] at h
          exact class_walk_found env a n d2 h k (by omega)

theorem class_walk_not_found (env : Registry) (a : Nat) :
    ∀ (k : Nat) (c : Option Nat), nth_parent env k c = none →
      (∀ j, 1 ≤ j → nth_parent env j c ≠ some a) →
      ∀ fuel, k ≤ fuel → class_walk env a fuel c = .ok false
  | _, none, _, _, fuel, _ => by cases fuel <;> rfl
  | 0, some c, h, _, _, _ => by simp [nth_parent] at h
  | k + 1, some c, h, hne, fuel, hf => by
      obtain ⟨m, rfl⟩ : ∃ m, fuel = m + 1 := ⟨fuel - 1, by omega⟩
      have h1 : (env.classes c).parent ≠ some a := by
        have := hne 1 (le_refl 1)
        simpa [nth_parent] using this
      simp only [class_walk, h1, if_false]
      apply class_walk_not_found env a k _ (by simpa [nth_parent] using h) _ m (by omega)
      intro j hj
      have := hne (j + 1) (by omega)
      simpa [nth_parent] using this

theorem nth_parent_cycle (env : Registry) (a p : Nat)
    (h : nth_parent env p (some a) = some a) :
    ∀ m, nth_parent env (m * p) (some a) = some a
  | 0 => by simp [nth_parent]
  | m + 1 => by
      have hm : (m + 1) * p = m * p + p := by ring
      rw [hm, nth_parent_add, nth_parent_cycle env a p h m, h]

/-- In a finite chain no class is met again above itself: a proper
descendant of `a` is never found on the way up from `a`. -/
theorem not_above_of_descendant (env : Registry) (d a : Nat)
    (hd : proper_descendant env d a) (hfin : chain_ends env a) :
    ∀ j, nth_parent env j (some a) ≠ some d := by
  intro j hj
  obtain ⟨n, hn⟩ := hd
  obtain ⟨k, hk⟩ := hfin
  have hp : nth_parent env (j + (n + 1)) (some a) = some a := by
    rw [nth_parent_add, hj, hn]
  have hcyc := nth_parent_cycle env a (j + (n + 1)) hp k
  have hsplit : k * (j + (n + 1)) = k + (k * (j + n)) := by ring
  rw [hsplit, nth_parent_add, hk, nth_parent_none] at hcyc
  exact absurd hcyc (by simp)

theorem descendant_ne (env : Registry) (d a : Nat)
    (hd : proper_descendant env d a) (hfin : chain_ends env a) : a ≠ d := by
  intro h
  have := not_above_of_descendant env d a hd hfin 0
  simp [nth_parent, h] at this

/-- Enough fuel: walking up from a proper descendant finds the ancestor. -/
theorem greater_eq_of_descendant (env : Registry) (d a : Nat)
    (hd : proper_descendant env d a) (hfin : chain_ends env a) :
    ∃ N, ∀ fuel, N ≤ fuel → lily_class_greater_eq env fuel a d = .ok true := by
  obtain ⟨n, hn⟩ := hd
  refine ⟨n + 1, fun fuel hf => ?_⟩
  have hne := descendant_ne env d a ⟨n, hn⟩ hfin
  simp only [lily_class_greater_eq, ne_eq, hne, not_false_eq_true, if_true]
  exact class_walk_found env a n d hn fuel hf

/-- Enough fuel: walking up from the ancestor never finds the descendant. -/
theorem not_greater_eq_of_descendant (env : Registry) (d a : Nat)
    (hd : proper_descendant env d a) (hfin : chain_ends env a) :
    ∃ N, ∀ fuel, N ≤ fuel → lily_class_greater_eq env fuel d a = .ok false := by
  obtain ⟨k, hk⟩ := hfin
  refine ⟨k, fun fuel hf => ?_⟩
  have hne := descendant_ne env d a hd ⟨k, hk⟩
  simp only [lily_class_greater_eq, ne_eq, Ne.symm hne, not_false_eq_true, if_true]
  exact class_walk_not_found env d k (some a) hk
    (fun j _ => not_above_of_descendant env d a hd ⟨k, hk⟩ j) fuel hf

/-! ## Dispatch of `check_raw` on plain classes and on functions -/

theorem plain_class_spec {env : Registry} {c : Nat} (h : plain_class env c = true) :
    (env.classes c).id ≠ env.SYM_CLASS_GENERIC ∧
    (env.classes c).id ≠ env.SYM_CLASS_FUNCTION ∧
    (env.classes c).id ≠ env.SYM_CLASS_OPTARG ∧
    (env.classes c).flags &&& env.CLS_IS_ENUM = 0 ∧
    (env.classes c).flags &&& env.CLS_IS_VARIANT = 0 := by
  simpa [plain_class, and_assoc] using h

theorem function_class_spec {env : Registry} {c : Nat} (h : function_class env c = true) :
    (env.classes c).id = env.SYM_CLASS_FUNCTION ∧
    env.SYM_CLASS_FUNCTION ≠ env.SYM_CLASS_GENERIC ∧
    (env.classes c).flags &&& env.CLS_IS_ENUM = 0 := by
  simpa [function_class, and_assoc] using h

theorem check_raw_plain (env : Registry) (fuel : Nat) (ts : lily_type_system)
    (x fx gx : Nat) (sx : List lily_type) (y fy gy : Nat) (sy : List lily_type) (flags : Nat)
    (hx : plain_class env x = true) :
    check_raw env (fuel + 1) ts (.node x fx gx sx) (.node y fy gy sy) flags =
      check_misc env fuel (check_raw env fuel) ts (.node x fx gx sx) (.node y fy gy sy)
        flags := by
  obtain ⟨h1, h2, _, h4, _⟩ := plain_class_spec hx
  simp [check_raw, h1, h2, h4]

theorem check_raw_functions (env : Registry) (fuel : Nat) (ts : lily_type_system)
    (fc f1 g1 : Nat) (s1 : List lily_type) (f2 g2 : Nat) (s2 : List lily_type) (flags : Nat)
    (hfc : function_class env fc = true) :
    check_raw env (fuel + 1) ts (.node fc f1 g1 s1) (.node fc f2 g2 s2) flags =
      check_function env (check_raw env fuel) ts (.node fc f1 g1 s1) (.node fc f2 g2 s2)
        flags := by
  obtain ⟨h1, h2, h3⟩ := function_class_spec hfc
  simp [check_raw, h1, h3, h2]

theorem check_misc_plain_cov (env : Registry) (fuel : Nat)
    (rec : lily_type_system → lily_type → lily_type → Nat → Res (Bool × lily_type_system))
    (ts : lily_type_system) (x fx gx y fy gy : Nat) (sy : List lily_type) (flags : Nat) (b : Bool)
    (hflag : flags &&& T_COVARIANT ≠ 0)
    (hge : lily_class_greater_eq env fuel x y = .ok b) :
    check_misc env fuel rec ts (.node x fx gx []) (.node y fy gy sy) flags = .ok (b, ts) := by
  unfold check_misc
  rw [if_pos hflag]
  simp [covariant_check, hge]

theorem check_misc_plain_contra (env : Registry) (fuel : Nat)
    (rec : lily_type_system → lily_type → lily_type → Nat → Res (Bool × lily_type_system))
    (ts : lily_type_system) (x fx gx : Nat) (sx : List lily_type) (y fy gy : Nat) (flags : Nat)
    (b : Bool) (hcov : ¬ flags &&& T_COVARIANT ≠ 0) (hflag : flags &&& T_CONTRAVARIANT ≠ 0)
    (hxy : x ≠ y) (hge : lily_class_greater_eq env fuel y x = .ok b) :
    check_misc env fuel rec ts (.node x fx gx sx) (.node y fy gy []) flags = .ok (b, ts) := by
  unfold check_misc
  rw [if_neg hcov, if_pos hflag]
  simp [contravariant_check, hge, hxy]

/-- Covariant comparison of two plain class types is the ancestry test. -/
theorem check_raw_plain_cov (env : Registry) (fuel : Nat) (ts : lily_type_system)
    (x fx gx y fy gy : Nat) (b : Bool) (hx : plain_class env x = true)
    (hge : lily_class_greater_eq env fuel x y = .ok b) :
    check_raw env (fuel + 1) ts (.node x fx gx []) (.node y fy gy []) T_COVARIANT =
      .ok (b, ts) := by
  rw [check_raw_plain env fuel ts x fx gx [] y fy gy [] _ hx]
  exact check_misc_plain_cov env fuel _ ts x fx gx y fy gy [] _ b (by decide) hge

/-- Contravariant comparison of two distinct plain class types is the
ancestry test with the classes swapped. -/
theorem check_raw_plain_contra (env : Registry) (fuel : Nat) (ts : lily_type_system)
    (x fx gx y fy gy : Nat) (b : Bool) (hx : plain_class env x = true) (hxy : x ≠ y)
    (hge : lily_class_greater_eq env fuel y x = .ok b) :
    check_raw env (fuel + 1) ts (.node x fx gx []) (.node y fy gy []) T_CONTRAVARIANT =
      .ok (b, ts) := by
  rw [check_raw_plain env fuel ts x fx gx [] y fy gy [] _ hx]
  exact check_misc_plain_contra env fuel _ ts x fx gx [] y fy gy _ b (by decide) (by decide)
    hxy hge

/-! ## `check_function` on particular shapes -/

theorem check_function_ret_fail (env : Registry)
    (rec : lily_type_system → lily_type → lily_type → Nat → Res (Bool × lily_type_system))
    (ts : lily_type_system) (c1 f1 g1 c2 f2 g2 : Nat) (r1 r2 : lily_type)
    (ps1 ps2 : List lily_type)
    (hret : rec ts r1 r2 T_COVARIANT = .ok (false, ts)) :
    check_function env rec ts (.node c1 f1 g1 (r1 :: ps1)) (.node c2 f2 g2 (r2 :: ps2)) 0 =
      .ok (false, ts) := by
  have hz : (0 &&& T_DONT_SOLVE) = 0 := by decide
  simp [check_function, subtype_at, hz, hret]

theorem check_function_unary (env : Registry)
    (rec : lily_type_system → lily_type → lily_type → Nat → Res (Bool × lily_type_system))
    (ts : lily_type_system) (c1 f1 g1 c2 f2 g2 : Nat) (r1 r2 p1 : lily_type)
    (y fy gy : Nat) (sy : List lily_type) (b : Bool)
    (hy : (env.classes y).id ≠ env.SYM_CLASS_OPTARG)
    (hret : rec ts r1 r2 T_COVARIANT = .ok (true, ts))
    (hpar : rec ts p1 (.node y fy gy sy) T_CONTRAVARIANT = .ok (b, ts)) :
    check_function env rec ts (.node c1 f1 g1 [r1, p1])
      (.node c2 f2 g2 [r2, .node y fy gy sy]) 0 = .ok (b, ts) := by
  have hz : (0 &&& T_DONT_SOLVE) = 0 := by decide
  cases b <;>
    simp [check_function, check_function_loop, subtype_at, hz, hret, hpar, hy]

theorem check_function_same_params (env : Registry)
    (rec : lily_type_system → lily_type → lily_type → Nat → Res (Bool × lily_type_system))
    (ts : lily_type_system) (c1 f1 g1 c2 f2 g2 : Nat) (r1 r2 : lily_type)
    (ps : List lily_type)
    (hret : rec ts r1 r2 T_COVARIANT = .ok (true, ts))
    (hps : ∀ p ∈ ps, p ≠ lily_type.null ∧
      rec ts p p T_CONTRAVARIANT = .ok (true, ts)) :
    check_function env rec ts (.node c1 f1 g1 (r1 :: ps)) (.node c2 f2 g2 (r2 :: ps)) 0 =
      .ok (true, ts) := by
  have hz : (0 &&& T_DONT_SOLVE) = 0 := by decide
  simp only [check_function, subtype_at, hz, List.getElem?_cons_zero, Nat.zero_or, hret,
    subtype_count_node, List.length_cons, gt_iff_lt, lt_self_iff_false, if_false, if_true,
    Nat.add_sub_cancel]
  apply check_function_loop_agree
  intro j hij hj
  obtain ⟨k, rfl⟩ : ∃ k, j = k + 1 := ⟨j - 1, by omega⟩
  have hk : k < ps.length := by omega
  have hmem : ps[k] ∈ ps := List.getElem_mem _
  refine ⟨ps[k], ?_, ?_, (hps _ hmem).1, (hps _ hmem).2⟩
  · rw [subtype_at_node _ _ _ _ _ (by simp only [List.length_cons]; omega)]
    simp
  · rw [subtype_at_node _ _ _ _ _ (by simp only [List.length_cons]; omega)]
    simp

/-! ## Function variance -/

/-- C4 as stated fails: with Dog a child of Animal, matching
`function (Animal => Animal)` against `function (Dog => Dog)` returns false. -/
theorem function_variance_scenario_counterexample :
    plain_class zoo 20 = true ∧ plain_class zoo 21 = true ∧
    function_class zoo 5 = true ∧ (zoo.classes 21).parent = some 20 ∧
    ret_of (lily_ts_check zoo 5 zoo_ts (zoo_fn zoo_Animal [zoo_Animal])
      (zoo_fn zoo_Dog [zoo_Dog])) = some false := by
  decide

/-- C4, amended: for plain subtype-less classes Animal and Dog where Dog is a
proper descendant of Animal (in a finite parent chain),
`lily_ts_check(function (Animal => Animal), function (Dog => Dog))` returns
false with the state unchanged: the parameter check is contravariant and Dog
is neither Animal nor an ancestor of Animal. -/
theorem function_variance_scenario (env : Registry) (fc a d f1 g1 f2 g2 fa ga fd gd : Nat)
    (hfc : function_class env fc = true) (ha : plain_class env a = true)
    (hd : plain_class env d = true) (hdesc : proper_descendant env d a)
    (hfin : chain_ends env a) :
    ∃ N, ∀ fuel, N ≤ fuel → ∀ ts,
      lily_ts_check env fuel ts
        (.node fc f1 g1 [.node a fa ga [], .node a fa ga []])
        (.node fc f2 g2 [.node d fd gd [], .node d fd gd []]) = .ok (false, ts) := by
  obtain ⟨N1, h1⟩ := greater_eq_of_descendant env d a hdesc hfin
  obtain ⟨N2, h2⟩ := not_greater_eq_of_descendant env d a hdesc hfin
  refine ⟨N1 + N2 + 2, fun fuel hf ts => ?_⟩
  obtain ⟨k, rfl⟩ : ∃ k, fuel = k + 2 := ⟨fuel - 2, by omega⟩
  rw [lily_ts_check, check_raw_functions env (k + 1) ts fc f1 g1 _ f2 g2 _ 0 hfc]
  exact check_function_unary env _ ts fc f1 g1 fc f2 g2 _ _ _ d fd gd [] false
    (plain_class_spec hd).2.2.1
    (check_raw_plain_cov env k ts a fa ga d fd gd true ha (h1 k (by omega)))
    (check_raw_plain_contra env k ts a fa ga d fd gd false ha
      (descendant_ne env d a hdesc hfin) (h2 k (by omega)))

/-- Instance of the amended C4 on Animal and Dog. -/
theorem function_variance_scenario_witness :
    ∃ N, ∀ fuel, N ≤ fuel → ∀ ts,
      lily_ts_check zoo fuel ts (zoo_fn zoo_Animal [zoo_Animal])
        (zoo_fn zoo_Dog [zoo_Dog]) = .ok (false, ts) :=
  function_variance_scenario zoo 5 20 21 0 0 0 0 0 0 0 0 (by decide) (by decide) (by decide)
    ⟨0, by decide⟩ ⟨1, by decide⟩

/-- C5 as stated fails: with an identical parameter list that holds the
placeholder `A`, whose slot is bound to Integer, the function returning Dog
does not match the one returning Animal. -/
theorem return_covariance_counterexample :
    plain_class zoo 20 = true ∧ plain_class zoo 21 = true ∧
    function_class zoo 5 = true ∧ (zoo.classes 21).parent = some 20 ∧
    ret_of (lily_ts_check zoo 5 zoo_ts_int (zoo_fn zoo_Animal [zoo_A])
      (zoo_fn zoo_Dog [zoo_A])) = some false := by
  decide

/-- C5, amended: for plain subtype-less classes `a` and `d`, `d` a proper
descendant of `a`, and function types with identical parameter lists:
when the parameters are concrete, well-formed and non-null,
`lily_ts_check(function (ps => a), function (ps => d))` returns true; and for
any identical parameter lists the reversed
`lily_ts_check(function (qs => d), function (qs => a))` returns false.
The state is unchanged in both. -/
theorem return_covariance_asymmetric (env : Registry)
    (hpar : ∀ c, (env.classes c).parent ≠ some c)
    (fc a d f1 g1 f2 g2 fa ga fd gd : Nat)
    (hfc : function_class env fc = true) (ha : plain_class env a = true)
    (hd : plain_class env d = true) (hdesc : proper_descendant env d a)
    (hfin : chain_ends env a) (ps qs : List lily_type)
    (hpc : all_concrete env ps = true) (hpw : all_well_formed env ps = true)
    (hpn : ∀ p ∈ ps, p ≠ lily_type.null) :
    ∃ N, ∀ fuel, N ≤ fuel → ∀ ts,
      lily_ts_check env fuel ts (.node fc f1 g1 (.node a fa ga [] :: ps))
        (.node fc f2 g2 (.node d fd gd [] :: ps)) = .ok (true, ts) ∧
      lily_ts_check env fuel ts (.node fc f1 g1 (.node d fd gd [] :: qs))
        (.node fc f2 g2 (.node a fa ga [] :: qs)) = .ok (false, ts) := by
  obtain ⟨N1, h1⟩ := greater_eq_of_descendant env d a hdesc hfin
  obtain ⟨N2, h2⟩ := not_greater_eq_of_descendant env d a hdesc hfin
  refine ⟨N1 + N2 + lily_type.depthList ps + 2, fun fuel hf ts => ?_⟩
  obtain ⟨k, rfl⟩ : ∃ k, fuel = k + 2 := ⟨fuel - 2, by omega⟩
  constructor
  · rw [lily_ts_check, check_raw_functions env (k + 1) ts fc f1 g1 _ f2 g2 _ 0 hfc]
    apply check_function_same_params
    · exact check_raw_plain_cov env k ts a fa ga d fd gd true ha (h1 k (by omega))
    · intro p hp
      refine ⟨hpn p hp, check_raw_same env hpar (k + 1) p ?_ (all_concrete_mem hpc hp)
        (all_well_formed_mem hpw hp) ts _⟩
      have := depth_le_of_mem hp
      omega
  · rw [lily_ts_check, check_raw_functions env (k + 1) ts fc f1 g1 _ f2 g2 _ 0 hfc]
    apply check_function_ret_fail
    exact check_raw_plain_cov env k ts d fd gd a fa ga false hd (h2 k (by omega))

/-- Instance of the amended C5: parameters Integer and an optional Integer. -/
theorem return_covariance_asymmetric_witness :
    ∃ N, ∀ fuel, N ≤ fuel → ∀ ts,
      lily_ts_check zoo fuel ts (zoo_fn zoo_Animal [zoo_Integer, .node 9 0 0 [zoo_Integer]])
        (zoo_fn zoo_Dog [zoo_Integer, .node 9 0 0 [zoo_Integer]]) = .ok (true, ts) ∧
      lily_ts_check zoo fuel ts (zoo_fn zoo_Dog [zoo_A])
        (zoo_fn zoo_Animal [zoo_A]) = .ok (false, ts) :=
  return_covariance_asymmetric zoo zoo_no_self_parent 5 20 21 0 0 0 0 0 0 0 0
    (by decide) (by decide) (by decide) ⟨0, by decide⟩ ⟨1, by decide⟩
    [zoo_Integer, .node 9 0 0 [zoo_Integer]] [zoo_A] (by decide) (by decide) (by decide)

/-- C6 as stated fails: with the common return type the placeholder `A`,
whose slot is bound to Integer, `function (Dog => A)` does not match
`function (Animal => A)`. -/
theorem parameter_contravariance_counterexample :
    plain_class zoo 20 = true ∧ plain_class zoo 21 = true ∧
    function_class zoo 5 = true ∧ (zoo.classes 21).parent = some 20 ∧
    ret_of (lily_ts_check zoo 5 zoo_ts_int (zoo_fn zoo_A [zoo_Dog])
      (zoo_fn zoo_A [zoo_Animal])) = some false := by
  decide

/-- C6, amended: for plain subtype-less classes `a` and `d`, `d` a proper
descendant of `a`, and any common return type `R` that is concrete and well
formed (`null` included), `lily_ts_check(function (d => R), function (a => R))`
returns true and `lily_ts_check(function (a => R), function (d => R))` returns
false, the state unchanged in both. -/
theorem parameter_contravariance (env : Registry)
    (hpar : ∀ c, (env.classes c).parent ≠ some c)
    (fc a d f1 g1 f2 g2 fa ga fd gd : Nat)
    (hfc : function_class env fc = true) (ha : plain_class env a = true)
    (hd : plain_class env d = true) (hdesc : proper_descendant env d a)
    (hfin : chain_ends env a) (R : lily_type)
    (hRc : is_concrete env R = true) (hRw : well_formed env R = true) :
    ∃ N, ∀ fuel, N ≤ fuel → ∀ ts,
      lily_ts_check env fuel ts (.node fc f1 g1 [R, .node d fd gd []])
        (.node fc f2 g2 [R, .node a fa ga []]) = .ok (true, ts) ∧
      lily_ts_check env fuel ts (.node fc f1 g1 [R, .node a fa ga []])
        (.node fc f2 g2 [R, .node d fd gd []]) = .ok (false, ts) := by
  obtain ⟨N1, h1⟩ := greater_eq_of_descendant env d a hdesc hfin
  obtain ⟨N2, h2⟩ := not_greater_eq_of_descendant env d a hdesc hfin
  refine ⟨N1 + N2 + R.depth + 2, fun fuel hf ts => ?_⟩
  obtain ⟨k, rfl⟩ : ∃ k, fuel = k + 2 := ⟨fuel - 2, by omega⟩
  have hR : check_raw env (k + 1) ts R R T_COVARIANT = .ok (true, ts) :=
    check_raw_same env hpar (k + 1) R (by omega) hRc hRw ts _
  have hne := descendant_ne env d a hdesc hfin
  constructor
  · rw [lily_ts_check, check_raw_functions env (k + 1) ts fc f1 g1 _ f2 g2 _ 0 hfc]
    exact check_function_unary env _ ts fc f1 g1 fc f2 g2 _ _ _ a fa ga [] true
      (plain_class_spec ha).2.2.1 hR
      (check_raw_plain_contra env k ts d fd gd a fa ga true hd (Ne.symm hne)
        (h1 k (by omega)))
  · rw [lily_ts_check, check_raw_functions env (k + 1) ts fc f1 g1 _ f2 g2 _ 0 hfc]
    exact check_function_unary env _ ts fc f1 g1 fc f2 g2 _ _ _ d fd gd [] false
      (plain_class_spec hd).2.2.1 hR
      (check_raw_plain_contra env k ts a fa ga d fd gd false ha hne (h2 k (by omega)))

/-- Instance of the amended C6 with the common return type String. -/
theorem parameter_contravariance_witness :
    ∃ N, ∀ fuel, N ≤ fuel → ∀ ts,
      lily_ts_check zoo fuel ts (zoo_fn zoo_String [zoo_Dog])
        (zoo_fn zoo_String [zoo_Animal]) = .ok (true, ts) ∧
      lily_ts_check zoo fuel ts (zoo_fn zoo_String [zoo_Animal])
        (zoo_fn zoo_String [zoo_Dog]) = .ok (false, ts) :=
  parameter_contravariance zoo zoo_no_self_parent 5 20 21 0 0 0 0 0 0 0 0
    (by decide) (by decide) (by decide) ⟨0, by decide⟩ ⟨1, by decide⟩
    zoo_String (by decide) (by decide)

/-! ## Enum against variant -/

theorem gpos_of_ne_null {t : lily_type} (h : t ≠ .null) :
    generic_pos_of t = .ok t.gpos := by
  cases t with
  | null => exact absurd rfl h
  | node c f g s => rfl

theorem check_raw_bind (env : Registry) (m : Nat) (tc : lily_type_system) (g T : lily_type)
    (hg : is_generic env g = true) (hT : T ≠ .null)
    (hslot : tc.types (tc.pos + g.gpos) = .null) :
    check_raw env (m + 1) tc g T 0 = .ok (true, set_type tc (tc.pos + g.gpos) T) := by
  rw [check_raw_generic env m tc g T 0 hg hT]
  obtain ⟨c, f, gp, s, rfl, _⟩ := is_generic_node hg
  simp only [lily_type.gpos] at hslot
  simp [check_generic, T_DONT_SOLVE, hslot, lily_type.gpos]

/-- The loop of `check_enum` in solving mode, from index `i` on: every
placeholder met is unbound, so each payload type is written to its slot. -/
theorem check_enum_loop_binds (env : Registry) (m : Nat)
    (e fl gl : Nat) (gs : List lily_type) (v fr gr : Nat) (payload : List lily_type)
    (oc fo go : Nat) (shape : List lily_type) (pos0 : Nat)
    (hgs : ∀ k (hk : k < gs.length), is_generic env gs[k] = true ∧ gs[k].gpos = k)
    (hshape : ∀ i (hi : i < shape.length),
      shape[i] ≠ lily_type.null ∧ shape[i].gpos < gs.length)
    (hinj : ∀ i (hi : i < shape.length) j (hj : j < shape.length),
      shape[i].gpos = shape[j].gpos → i = j)
    (hlen : payload.length = shape.length)
    (hpay : ∀ t ∈ payload, t ≠ lily_type.null) :
    ∀ (n i : Nat) (tc : lily_type_system), i + n = shape.length → tc.pos = pos0 →
      (∀ j (hj : j < shape.length), i ≤ j → tc.types (pos0 + shape[j].gpos) = .null) →
      ∃ ts1, check_enum_loop (check_raw env (m + 1)) (.node e fl gl gs)
          (.node v fr gr payload) (.node oc fo go shape) 0 n i tc = .ok (true, ts1) ∧
        ts1.pos = tc.pos ∧ ts1.ceiling = tc.ceiling ∧
        (∀ j (hj : j < shape.length) (hjp : j < payload.length), i ≤ j →
          ts1.types (pos0 + shape[j].gpos) = payload[j]) ∧
        (∀ x, (∀ j (hj : j < shape.length), i ≤ j → x ≠ pos0 + shape[j].gpos) →
          ts1.types x = tc.types x)
  | 0, i, tc, hin, _, _ => by
      refine ⟨tc, rfl, rfl, rfl, ?_, fun _ _ => rfl⟩
      intro j hj _ hij
      omega
  | n + 1, i, tc, hin, hpos, hnull => by
      have hi : i < shape.length := by omega
      have hip : i < payload.length := by omega
      obtain ⟨hsn, hsl⟩ := hshape i hi
      obtain ⟨hgen, hgp⟩ := hgs _ hsl
      have hpn : payload[i] ≠ lily_type.null := hpay _ (List.getElem_mem _)
      have hslot : tc.types (tc.pos + (gs[shape[i].gpos]).gpos) = .null := by
        rw [hgp, hpos]
        exact hnull i hi (le_refl i)
      have hstep : check_raw env (m + 1) tc gs[shape[i].gpos] payload[i] 0 =
          .ok (true, set_type tc (pos0 + shape[i].gpos) payload[i]) := by
        rw [check_raw_bind env m tc _ _ hgen hpn hslot, hgp, hpos]
      obtain ⟨ts1, hrun, hp1, hc1, hbound, hrest⟩ :=
        check_enum_loop_binds env m e fl gl gs v fr gr payload oc fo go shape pos0
          hgs hshape hinj hlen hpay n (i + 1)
          (set_type tc (pos0 + shape[i].gpos) payload[i]) (by omega) hpos
          (by
            intro j hj hij
            have hne : shape[j].gpos ≠ shape[i].gpos := fun h => by
              have := hinj j hj i hi h
              omega
            have hne2 : pos0 + shape[j].gpos ≠ pos0 + shape[i].gpos := by omega
            simp only [set_type, hne2, if_false]
            exact hnull j hj (by omega))
      refine ⟨ts1, ?_, hp1, hc1, ?_, ?_⟩
      · simp only [check_enum_loop, subtype_at_node oc fo go shape i hi, gpos_of_ne_null hsn,
          subtype_at_node e fl gl gs _ hsl, subtype_at_node v fr gr payload i hip, hstep]
        simpa using hrun
      · intro j hj hjp hij
        by_cases hji : j = i
        · subst hji
          rw [hrest _ (fun j2 hj2 hij2 => by
            have hne : shape[j2].gpos ≠ shape[j].gpos := fun h => by
              have := hinj j2 hj2 j hi h
              omega
            omega)]
          simp [set_type]
        · exact hbound j hj hjp (by omega)
      · intro x hx
        rw [hrest x (fun j hj hij => hx j hj (by omega))]
        have := hx i hi (le_refl i)
        simp [set_type, this]

/-- C7: enum/variant projection solves generics.  For an enum class `e` and a
variant class `v` with parent `e` whose `variant_type` has the output
`Some[...]` with subtypes `shape` (payload index `i` maps to generic position
`shape[i].generic_pos`, all distinct), if every slot of the active frame is
absent then `lily_ts_check(e[g_0..g_n], v[t_0..t_m])`, with `g_k` the
placeholder of position `k` and every `t_i` non-absent, returns true, leaves
slot `shape[i].generic_pos` bound to `t_i` for every payload index `i`, and
leaves every other slot as it was, so the rest of the frame is still absent;
`pos` and `ceiling` are unchanged. -/
theorem enum_variant_projection (env : Registry) (e v vc vf vg oc fo go : Nat)
    (shape ins : List lily_type) (fl gl : Nat) (gs : List lily_type) (fr gr : Nat)
    (payload : List lily_type) (ts : lily_type_system) (fuel : Nat)
    (he_id : (env.classes e).id ≠ env.SYM_CLASS_GENERIC)
    (he_enum : (env.classes e).flags &&& env.CLS_IS_ENUM ≠ 0)
    (hv_var : (env.classes v).flags &&& env.CLS_IS_VARIANT ≠ 0)
    (hv_par : (env.classes v).parent = some e)
    (hvt : (env.classes v).variant_type = .node vc vf vg (.node oc fo go shape :: ins))
    (hgs : ∀ k (hk : k < gs.length), is_generic env gs[k] = true ∧ gs[k].gpos = k)
    (hshape : ∀ i (hi : i < shape.length),
      shape[i] ≠ lily_type.null ∧ shape[i].gpos < gs.length)
    (hinj : ∀ i (hi : i < shape.length) j (hj : j < shape.length),
      shape[i].gpos = shape[j].gpos → i = j)
    (hlen : payload.length = shape.length)
    (hpay : ∀ t ∈ payload, t ≠ lily_type.null)
    (hframe : ∀ k, k < ts.ceiling → ts.types (ts.pos + k) = .null)
    (hin : gs.length ≤ ts.ceiling) (hfuel : 2 ≤ fuel) :
    ∃ ts1, lily_ts_check env fuel ts (.node e fl gl gs) (.node v fr gr payload) =
        .ok (true, ts1) ∧
      ts1.pos = ts.pos ∧ ts1.ceiling = ts.ceiling ∧
      (∀ i (hi : i < shape.length) (hip : i < payload.length),
        ts1.types (ts.pos + shape[i].gpos) = payload[i]) ∧
      (∀ x, (∀ i (hi : i < shape.length), x ≠ ts.pos + shape[i].gpos) →
        ts1.types x = ts.types x) ∧
      (∀ k, k < ts.ceiling → (∀ i (hi : i < shape.length), k ≠ shape[i].gpos) →
        ts1.types (ts.pos + k) = .null) := by
  obtain ⟨m, rfl⟩ : ∃ m, fuel = m + 2 := ⟨fuel - 2, by omega⟩
  obtain ⟨ts1, hrun, hp1, hc1, hbound, hrest⟩ :=
    check_enum_loop_binds env m e fl gl gs v fr gr payload oc fo go shape ts.pos
      hgs hshape hinj hlen hpay shape.length 0 ts (by omega) rfl
      (fun j hj _ => hframe _ (by have := (hshape j hj).2; omega))
  refine ⟨ts1, ?_, hp1, hc1, fun i hi hip => hbound i hi hip (Nat.zero_le _),
    fun x hx => hrest x (fun j hj _ => hx j hj), ?_⟩
  · have hz : (0 &&& T_DONT_SOLVE) = 0 := by decide
    simp only [lily_ts_check, check_raw, reduceCtorEq, or_self, if_false, cls_of_node, he_id,
      he_enum, hv_var, hv_par, ne_eq, not_false_eq_true, and_self, if_true, check_enum, hvt,
      subtype_count_node, List.length_cons, Nat.add_one_ne_zero, subtype_at,
      List.getElem?_cons_zero, hz]
    exact hrun
  · intro k hk hne
    rw [hrest _ (fun j hj _ => by have := hne j hj; omega)]
    exact hframe k hk

/-- Instance of C7: `Option[A]` against `Some[Integer]` in an empty frame
binds `A := Integer` and leaves slot 1 absent. -/
theorem enum_variant_projection_witness :
    ∃ ts1, lily_ts_check zoo 2 zoo_ts (.node 30 0 0 [zoo_A]) (.node 31 0 0 [zoo_Integer]) =
        .ok (true, ts1) ∧
      ts1.types 0 = zoo_Integer ∧ ts1.types 1 = .null := by
  obtain ⟨ts1, hrun, _, _, hbound, _, hrest⟩ :=
    enum_variant_projection zoo 30 31 5 0 0 31 0 0 [zoo_A] [zoo_A] 0 0 [zoo_A] 0 0
      [zoo_Integer] zoo_ts 2 (by decide) (by decide) (by decide) (by decide) (by decide)
      (by decide) (by decide) (by decide) (by decide) (by decide) (by decide) (by decide)
      (by decide)
  exact ⟨ts1, hrun, hbound 0 (by decide) (by decide), hrest 1 (by decide) (by decide)⟩

/-! ## Exact mode never writes -/

theorem dont_solve_bit {flags : Nat} (h : flags &&& T_DONT_SOLVE ≠ 0) :
    flags &&& T_DONT_SOLVE = 1 := by
  simp only [T_DONT_SOLVE, Nat.and_one_is_mod] at h ⊢
  omega

theorem dont_solve_or (flags k : Nat) (h : flags &&& T_DONT_SOLVE ≠ 0) :
    (flags ||| k) &&& T_DONT_SOLVE ≠ 0 := by
  simp only [T_DONT_SOLVE, Nat.and_one_is_mod] at h ⊢
  have h1 : (flags ||| k) % 2 = 1 := Nat.or_mod_two_eq_one.mpr (Or.inl (by omega))
  omega

theorem dont_solve_and (flags : Nat) (h : flags &&& T_DONT_SOLVE ≠ 0) :
    (flags &&& T_DONT_SOLVE) &&& T_DONT_SOLVE ≠ 0 := by
  rw [Nat.and_assoc, Nat.and_self]
  exact h

theorem check_enum_loop_frame
    (rec : lily_type_system → lily_type → lily_type → Nat → Res (Bool × lily_type_system))
    (left right vo : lily_type) (flags : Nat)
    (hrec : ∀ ts l r b ts1, rec ts l r flags = .ok (b, ts1) → ts1 = ts) :
    ∀ (n i : Nat) (ts : lily_type_system) (b : Bool) (ts1 : lily_type_system),
      check_enum_loop rec left right vo flags n i ts = .ok (b, ts1) → ts1 = ts
  | 0, _, ts, b, ts1, h => by
      simp only [check_enum_loop, Except.ok.injEq, Prod.mk.injEq] at h
      exact h.2.symm
  | n + 1, i, ts, b, ts1, h => by
      simp only [check_enum_loop] at h
      split at h
      · cases h
      split at h
      · cases h
      split at h
      · cases h
      split at h
      · cases h
      split at h
      · cases h
      rename_i ret ts2 hstep
      have h2 := hrec _ _ _ _ _ hstep
      subst h2
      split at h
      · simp only [Except.ok.injEq, Prod.mk.injEq] at h
        exact h.2.symm
      · exact check_enum_loop_frame rec left right vo flags hrec n (i + 1) _ b ts1 h

theorem check_function_loop_frame (env : Registry)
    (rec : lily_type_system → lily_type → lily_type → Nat → Res (Bool × lily_type_system))
    (left right : lily_type) (flags : Nat)
    (hrec : ∀ ts l r b ts1, rec ts l r flags = .ok (b, ts1) → ts1 = ts) :
    ∀ (n i : Nat) (ts : lily_type_system) (b : Bool) (ts1 : lily_type_system),
      check_function_loop env rec left right flags n i ts = .ok (b, ts1) → ts1 = ts
  | 0, _, ts, b, ts1, h => by
      simp only [check_function_loop, Except.ok.injEq, Prod.mk.injEq] at h
      exact h.2.symm
  | n + 1, i, ts, b, ts1, h => by
      simp only [check_function_loop] at h
      split at h
      · cases h
      split at h
      · cases h
      split at h
      · cases h
      split at h
      · cases h
      split at h
      · cases h
      rename_i ret ts2 hstep
      have h2 := hrec _ _ _ _ _ hstep
      subst h2
      split at h
      · simp only [Except.ok.injEq, Prod.mk.injEq] at h
        exact h.2.symm
      · exact check_function_loop_frame env rec left right flags hrec n (i + 1) _ b ts1 h

theorem check_misc_loop_frame
    (rec : lily_type_system → lily_type → lily_type → Nat → Res (Bool × lily_type_system))
    (left right : lily_type) (flags : Nat)
    (hrec : ∀ ts l r b ts1, rec ts l r flags = .ok (b, ts1) → ts1 = ts) :
    ∀ (n i : Nat) (ts : lily_type_system) (b : Bool) (ts1 : lily_type_system),
      check_misc_loop rec left right flags n i ts = .ok (b, ts1) → ts1 = ts
  | 0, _, ts, b, ts1, h => by
      simp only [check_misc_loop, Except.ok.injEq, Prod.mk.injEq] at h
      exact h.2.symm
  | n + 1, i, ts, b, ts1, h => by
      simp only [check_misc_loop] at h
      split at h
      · cases h
      split at h
      · cases h
      split at h
      · split at h
        · cases h
        rename_i ret ts2 hstep
        have h2 := hrec _ _ _ _ _ hstep
        subst h2
        split at h
        · simp only [Except.ok.injEq, Prod.mk.injEq] at h
          exact h.2.symm
        · exact check_misc_loop_frame rec left right flags hrec n (i + 1) _ b ts1 h
      · exact check_misc_loop_frame rec left right flags hrec n (i + 1) _ b ts1 h

theorem check_generic_frame
    (rec : lily_type_system → lily_type → lily_type → Nat → Res (Bool × lily_type_system))
    (ts : lily_type_system) (left right : lily_type) (flags : Nat)
    (hf : flags &&& T_DONT_SOLVE ≠ 0) (b : Bool) (ts1 : lily_type_system)
    (h : check_generic rec ts left right flags = .ok (b, ts1)) : ts1 = ts := by
  simp only [check_generic, if_pos hf, Except.ok.injEq, Prod.mk.injEq] at h
  exact h.2.symm

theorem check_enum_frame (env : Registry)
    (rec : lily_type_system → lily_type → lily_type → Nat → Res (Bool × lily_type_system))
    (hrec : ∀ flags, flags &&& T_DONT_SOLVE ≠ 0 →
      ∀ ts l r b ts1, rec ts l r flags = .ok (b, ts1) → ts1 = ts)
    (ts : lily_type_system) (left right : lily_type) (flags : Nat)
    (hf : flags &&& T_DONT_SOLVE ≠ 0) (b : Bool) (ts1 : lily_type_system)
    (h : check_enum env rec ts left right flags = .ok (b, ts1)) : ts1 = ts := by
  simp only [check_enum] at h
  split at h
  · cases h
  split at h
  · cases h
  split at h
  · split at h
    · cases h
    split at h
    · cases h
    exact check_enum_loop_frame rec left right _ _ (hrec _ (dont_solve_and flags hf))
      _ _ _ _ _ h
  · simp only [Except.ok.injEq, Prod.mk.injEq] at h
    exact h.2.symm

theorem check_function_frame (env : Registry)
    (rec : lily_type_system → lily_type → lily_type → Nat → Res (Bool × lily_type_system))
    (hrec : ∀ flags, flags &&& T_DONT_SOLVE ≠ 0 →
      ∀ ts l r b ts1, rec ts l r flags = .ok (b, ts1) → ts1 = ts)
    (ts : lily_type_system) (left right : lily_type) (flags : Nat)
    (hf : flags &&& T_DONT_SOLVE ≠ 0) (b : Bool) (ts1 : lily_type_system)
    (h : check_function env rec ts left right flags = .ok (b, ts1)) : ts1 = ts := by
  simp only [check_function] at h
  split at h
  · cases h
  split at h
  · cases h
  split at h
  · cases h
  rename_i r ts2 hstep
  have h2 := hrec _ (dont_solve_or _ T_COVARIANT (dont_solve_and flags hf)) _ _ _ _ _ hstep
  subst h2
  split at h
  · cases h
  split at h
  · cases h
  split at h
  · simp only [Bool.false_eq_true, if_false, Except.ok.injEq, Prod.mk.injEq] at h
    exact h.2.symm
  · split at h
    · exact check_function_loop_frame env rec left right _
        (hrec _ (dont_solve_or _ T_CONTRAVARIANT (dont_solve_and flags hf))) _ _ _ _ _ h
    · simp only [Except.ok.injEq, Prod.mk.injEq] at h
      exact h.2.symm

theorem check_misc_frame (env : Registry) (fuel : Nat)
    (rec : lily_type_system → lily_type → lily_type → Nat → Res (Bool × lily_type_system))
    (hrec : ∀ flags, flags &&& T_DONT_SOLVE ≠ 0 →
      ∀ ts l r b ts1, rec ts l r flags = .ok (b, ts1) → ts1 = ts)
    (ts : lily_type_system) (left right : lily_type) (flags : Nat)
    (hf : flags &&& T_DONT_SOLVE ≠ 0) (b : Bool) (ts1 : lily_type_system)
    (h : check_misc env fuel rec ts left right flags = .ok (b, ts1)) : ts1 = ts := by
  simp only [check_misc] at h
  split at h
  · cases h
  split at h
  · exact check_misc_loop_frame rec left right _ (hrec _ (dont_solve_and flags hf))
      _ _ _ _ _ h
  · simp only [Except.ok.injEq, Prod.mk.injEq] at h
    exact h.2.symm

/-- With `T_DONT_SOLVE` set, `check_raw` returns the state it was given. -/
theorem check_raw_frame (env : Registry) :
    ∀ (fuel : Nat) (flags : Nat), flags &&& T_DONT_SOLVE ≠ 0 →
      ∀ (ts : lily_type_system) (l r : lily_type) (b : Bool) (ts1 : lily_type_system),
      check_raw env fuel ts l r flags = .ok (b, ts1) → ts1 = ts
  | 0, _, _, _, _, _, _, _, h => by simp [check_raw] at h
  | fuel + 1, flags, hf, ts, l, r, b, ts1, h => by
      have ih := check_raw_frame env fuel
      simp only [check_raw] at h
      split at h
      · simp only [Except.ok.injEq, Prod.mk.injEq] at h
        exact h.2.symm
      split at h
      · cases h
      split at h
      · cases h
      split at h
      · exact check_generic_frame _ ts l r flags hf b ts1 h
      split at h
      · exact check_enum_frame env _ ih ts l r flags hf b ts1 h
      split at h
      · exact check_function_frame env _ ih ts l r flags hf b ts1 h
      · exact check_misc_frame env fuel _ ih ts l r flags hf b ts1 h

/-- C8: no solving in the exact-mode entry points.  For all types and every
state of the binding stack, whenever `lily_ts_type_greater_eq(left, right)`
or `lily_ts_enum_membership_check(enum_type, variant_type)` returns, with
whatever result, the state it leaves (every slot, `pos`, `ceiling`, `max`,
`max_seen`) is the state it was given. -/
theorem exact_entry_points_do_not_solve (env : Registry) (fuel : Nat)
    (ts : lily_type_system) (left right : lily_type) :
    (∀ b ts1, lily_ts_type_greater_eq env fuel ts left right = .ok (b, ts1) → ts1 = ts) ∧
    (∀ b ts1, lily_ts_enum_membership_check env fuel ts left right = .ok (b, ts1) →
      ts1 = ts) := by
  constructor
  · intro b ts1 h
    exact check_raw_frame env fuel _ (by decide) ts left right b ts1 h
  · intro b ts1 h
    simp only [lily_ts_enum_membership_check] at h
    split at h
    · cases h
    split at h
    · cases h
    split at h
    · exact check_enum_frame env _ (check_raw_frame env fuel) ts left right _ (by decide)
        b ts1 h
    · simp only [Except.ok.injEq, Prod.mk.injEq] at h
      exact h.2.symm

/-- Instance of C8: the unbound placeholder `A` against Integer, and
`Option[A]` against `Some[Integer]`; both calls return and the empty frame is
still empty. -/
theorem exact_entry_points_do_not_solve_witness :
    (∃ b, lily_ts_type_greater_eq zoo 3 zoo_ts zoo_A zoo_Integer = .ok (b, zoo_ts)) ∧
    (∃ b, lily_ts_enum_membership_check zoo 3 zoo_ts (.node 30 0 0 [zoo_A])
      (.node 31 0 0 [zoo_Integer]) = .ok (b, zoo_ts)) := by
  constructor
  · cases hres : lily_ts_type_greater_eq zoo 3 zoo_ts zoo_A zoo_Integer with
    | error e =>
      have hd : ret_of (lily_ts_type_greater_eq zoo 3 zoo_ts zoo_A zoo_Integer) =
          some false := by decide
      rw [hres] at hd
      cases hd
    | ok p =>
      obtain ⟨b, ts1⟩ := p
      have := (exact_entry_points_do_not_solve zoo 3 zoo_ts zoo_A zoo_Integer).1 b ts1 hres
      exact ⟨b, by rw [this]⟩
  · cases hres : lily_ts_enum_membership_check zoo 3 zoo_ts (.node 30 0 0 [zoo_A])
        (.node 31 0 0 [zoo_Integer]) with
    | error e =>
      have hd : ret_of (lily_ts_enum_membership_check zoo 3 zoo_ts (.node 30 0 0 [zoo_A])
          (.node 31 0 0 [zoo_Integer])) = some false := by decide
      rw [hres] at hd
      cases hd
    | ok p =>
      obtain ⟨b, ts1⟩ := p
      have := (exact_entry_points_do_not_solve zoo 3 zoo_ts (.node 30 0 0 [zoo_A])
        (.node 31 0 0 [zoo_Integer])).2 b ts1 hres
      exact ⟨b, by rw [this]⟩

/-! ## Frames -/

theorem raise_clear_fields :
    ∀ (n i : Nat) (ts : lily_type_system),
      (raise_clear n i ts).pos = ts.pos ∧ (raise_clear n i ts).ceiling = ts.ceiling ∧
      (raise_clear n i ts).max = ts.max ∧ (raise_clear n i ts).max_seen = ts.max_seen ∧
      (raise_clear n i ts).any_class_type = ts.any_class_type
  | 0, _, _ => ⟨rfl, rfl, rfl, rfl, rfl⟩
  | n + 1, i, ts => by
      simp only [raise_clear]
      exact raise_clear_fields n (i + 1) (set_type ts (ts.pos + i) .null)

theorem raise_clear_types :
    ∀ (n i : Nat) (ts : lily_type_system) (j : Nat),
      (raise_clear n i ts).types j =
        if ts.pos + i ≤ j ∧ j < ts.pos + i + n then lily_type.null else ts.types j
  | 0, i, ts, j => by
      have : ¬ (ts.pos + i ≤ j ∧ j < ts.pos + i + 0) := by omega
      simp only [raise_clear, this, if_false]
  | n + 1, i, ts, j => by
      simp only [raise_clear]
      rw [raise_clear_types n (i + 1) (set_type ts (ts.pos + i) .null) j]
      simp only [set_type]
      by_cases h1 : ts.pos + (i + 1) ≤ j ∧ j < ts.pos + (i + 1) + n
      · have h2 : ts.pos + i ≤ j ∧ j < ts.pos + i + (n + 1) := by omega
        rw [if_pos h1, if_pos h2]
      · rw [if_neg h1]
        by_cases h3 : j = ts.pos + i
        · have h2 : ts.pos + i ≤ j ∧ j < ts.pos + i + (n + 1) := by omega
          rw [if_pos h3, if_pos h2]
        · have h2 : ¬ (ts.pos + i ≤ j ∧ j < ts.pos + i + (n + 1)) := by omega
          rw [if_neg h3, if_neg h2]

theorem apply_writes_fields :
    ∀ (ws : List (Nat × lily_type)) (ts : lily_type_system),
      (apply_writes ts ws).pos = ts.pos ∧ (apply_writes ts ws).ceiling = ts.ceiling ∧
      (apply_writes ts ws).max = ts.max ∧ (apply_writes ts ws).max_seen = ts.max_seen
  | [], _ => ⟨rfl, rfl, rfl, rfl⟩
  | w :: ws, ts => by
      simp only [apply_writes, List.foldl_cons]
      exact apply_writes_fields ws (set_type ts w.1 w.2)

theorem apply_writes_types :
    ∀ (ws : List (Nat × lily_type)) (ts : lily_type_system) (j : Nat),
      (∀ w ∈ ws, w.1 ≠ j) → (apply_writes ts ws).types j = ts.types j
  | [], _, _, _ => rfl
  | w :: ws, ts, j, h => by
      simp only [apply_writes, List.foldl_cons]
      have h1 := apply_writes_types ws (set_type ts w.1 w.2) j
        (fun x hx => h x (List.mem_cons_of_mem _ hx))
      simp only [apply_writes] at h1
      rw [h1]
      have h2 : j ≠ w.1 := fun e => h w (List.mem_cons_self _ _) e.symm
      simp [set_type, h2]

theorem ENSURE_TYPE_STACK_fields (ts : lily_type_system) (n : Nat) :
    (ENSURE_TYPE_STACK ts n).pos = ts.pos ∧ (ENSURE_TYPE_STACK ts n).ceiling = ts.ceiling ∧
    (ENSURE_TYPE_STACK ts n).max_seen = ts.max_seen ∧
    (ENSURE_TYPE_STACK ts n).types = ts.types ∧ ts.max ≤ (ENSURE_TYPE_STACK ts n).max := by
  unfold ENSURE_TYPE_STACK
  split
  · exact ⟨rfl, rfl, rfl, rfl, by simp only [grow_types]; omega⟩
  · exact ⟨rfl, rfl, rfl, rfl, le_refl _⟩

/-- The state after `lily_ts_raise_ceiling`, field by field. -/
theorem raise_ceiling_spec (ts : lily_type_system) :
    (lily_ts_raise_ceiling ts).1 = ts.ceiling ∧
    (lily_ts_raise_ceiling ts).2.pos = ts.pos + ts.ceiling ∧
    (lily_ts_raise_ceiling ts).2.ceiling = ts.max_seen ∧
    (lily_ts_raise_ceiling ts).2.max_seen = ts.max_seen ∧
    ts.max ≤ (lily_ts_raise_ceiling ts).2.max ∧
    (∀ j, (lily_ts_raise_ceiling ts).2.types j =
      if ts.pos + ts.ceiling ≤ j ∧ j < ts.pos + ts.ceiling + ts.max_seen then lily_type.null
      else ts.types j) := by
  obtain ⟨e1, e2, e3, e4, e5⟩ :=
    ENSURE_TYPE_STACK_fields ts (ts.pos + ts.ceiling + ts.max_seen * 2)
  refine ⟨rfl, ?_, ?_, ?_, ?_, ?_⟩ <;> simp only [lily_ts_raise_ceiling]
  · rw [(raise_clear_fields _ _ _).1, e1, e2]
  · rw [(raise_clear_fields _ _ _).2.1, e3]
  · rw [(raise_clear_fields _ _ _).2.2.2.1, e3]
  · rw [(raise_clear_fields _ _ _).2.2.1]
    exact e5
  · intro j
    rw [raise_clear_types]
    simp only [e1, e2, e3, e4, Nat.add_zero]

theorem count_loop_all_null (ts : lily_type_system) :
    ∀ (n i count : Nat), (∀ j, i ≤ j → j < i + n → ts.types j = .null) →
      count_loop ts n i count = count + n
  | 0, _, _, _ => rfl
  | n + 1, i, count, h => by
      simp only [count_loop, h i (le_refl i) (by omega), if_true]
      rw [count_loop_all_null ts n (i + 1) (count + 1) (fun j h1 h2 => h j (by omega) (by omega))]
      omega

/-- C9: frame round trip.  For every state, `h = lily_ts_raise_ceiling()`,
then any writes to slots of the window of the new frame, then
`lily_ts_lower_ceiling(h)` restore `pos` and `ceiling` to their values before
the raise, and every slot below the old `pos + ceiling` holds the value it
held before; this covers the states in which the raise grows the storage
(`max` never shrinks, `max_seen` is unchanged). -/
theorem frame_round_trip (ts : lily_type_system) (ws : List (Nat × lily_type))
    (hws : ∀ w ∈ ws, (lily_ts_raise_ceiling ts).2.pos ≤ w.1 ∧
      w.1 < (lily_ts_raise_ceiling ts).2.pos + (lily_ts_raise_ceiling ts).2.ceiling) :
    (lily_ts_lower_ceiling (apply_writes (lily_ts_raise_ceiling ts).2 ws)
      (lily_ts_raise_ceiling ts).1).pos = ts.pos ∧
    (lily_ts_lower_ceiling (apply_writes (lily_ts_raise_ceiling ts).2 ws)
      (lily_ts_raise_ceiling ts).1).ceiling = ts.ceiling ∧
    (∀ i, i < ts.pos + ts.ceiling →
      (lily_ts_lower_ceiling (apply_writes (lily_ts_raise_ceiling ts).2 ws)
        (lily_ts_raise_ceiling ts).1).types i = ts.types i) ∧
    (lily_ts_lower_ceiling (apply_writes (lily_ts_raise_ceiling ts).2 ws)
      (lily_ts_raise_ceiling ts).1).max_seen = ts.max_seen ∧
    ts.max ≤ (lily_ts_lower_ceiling (apply_writes (lily_ts_raise_ceiling ts).2 ws)
      (lily_ts_raise_ceiling ts).1).max := by
  obtain ⟨r1, r2, r3, r4, r5, r6⟩ := raise_ceiling_spec ts
  obtain ⟨a1, a2, a3, a4⟩ := apply_writes_fields ws (lily_ts_raise_ceiling ts).2
  simp only [lily_ts_lower_ceiling]
  refine ⟨?_, r1, ?_, ?_, ?_⟩
  · rw [a1, r2, r1]
    omega
  · intro i hi
    rw [apply_writes_types ws _ i (fun w hw => by have := (hws w hw).1; omega), r6]
    have : ¬ (ts.pos + ts.ceiling ≤ i ∧ i < ts.pos + ts.ceiling + ts.max_seen) := by omega
    rw [if_neg this]
  · rw [a4, r4]
  · rw [a3]
    exact r5

/-- Instance of C9: the frame `[Integer, null]` with `max = 4`; the raise
grows the storage to 8 slots, both slots of the new window are written, and
after lowering the outer frame is as before. -/
theorem frame_round_trip_witness :
    (lily_ts_raise_ceiling zoo_ts_int).2.max = 8 ∧
    (lily_ts_lower_ceiling (apply_writes (lily_ts_raise_ceiling zoo_ts_int).2
      [(2, zoo_String), (3, zoo_Dog)]) (lily_ts_raise_ceiling zoo_ts_int).1).pos = 0 ∧
    (lily_ts_lower_ceiling (apply_writes (lily_ts_raise_ceiling zoo_ts_int).2
      [(2, zoo_String), (3, zoo_Dog)]) (lily_ts_raise_ceiling zoo_ts_int).1).ceiling = 2 ∧
    (lily_ts_lower_ceiling (apply_writes (lily_ts_raise_ceiling zoo_ts_int).2
      [(2, zoo_String), (3, zoo_Dog)]) (lily_ts_raise_ceiling zoo_ts_int).1).types 0 =
        zoo_Integer := by
  obtain ⟨h1, h2, h3, _, _⟩ := frame_round_trip zoo_ts_int [(2, zoo_String), (3, zoo_Dog)]
    (by decide)
  exact ⟨by decide, h1, h2, h3 0 (by decide)⟩

/-- C10: opening a frame zeroes it.  For every state, right after
`lily_ts_raise_ceiling()` the ceiling equals `max_seen`, every slot of the new
window `[pos, pos + ceiling)` is absent, and `lily_ts_count_unresolved()`
returns `max_seen`, whatever those slots held before. -/
theorem raise_zeroes_frame (ts : lily_type_system) :
    (lily_ts_raise_ceiling ts).2.ceiling = ts.max_seen ∧
    (∀ i, i < (lily_ts_raise_ceiling ts).2.ceiling →
      (lily_ts_raise_ceiling ts).2.types ((lily_ts_raise_ceiling ts).2.pos + i) = .null) ∧
    lily_ts_count_unresolved (lily_ts_raise_ceiling ts).2 = ts.max_seen := by
  obtain ⟨_, r2, r3, _, _, r6⟩ := raise_ceiling_spec ts
  have hz : ∀ i, i < ts.max_seen →
      (lily_ts_raise_ceiling ts).2.types (ts.pos + ts.ceiling + i) = .null := by
    intro i hi
    rw [r6]
    have : ts.pos + ts.ceiling ≤ ts.pos + ts.ceiling + i ∧
        ts.pos + ts.ceiling + i < ts.pos + ts.ceiling + ts.max_seen := by omega
    rw [if_pos this]
  refine ⟨r3, ?_, ?_⟩
  · intro i hi
    rw [r2]
    exact hz i (by omega)
  · simp only [lily_ts_count_unresolved]
    rw [count_loop_all_null]
    · rw [r2, r3]
      omega
    · intro j h1 h2
      rw [r2] at h1 h2
      rw [r3] at h2
      have := hz (j - (ts.pos + ts.ceiling)) (by omega)
      rwa [show ts.pos + ts.ceiling + (j - (ts.pos + ts.ceiling)) = j by omega] at this

/-- Instance of C10: a frame whose next two slots hold stale types. -/
theorem raise_zeroes_frame_witness :
    (lily_ts_raise_ceiling (apply_writes zoo_ts [(2, zoo_String), (3, zoo_Dog)])).2.types 2 =
      .null ∧
    (lily_ts_raise_ceiling (apply_writes zoo_ts [(2, zoo_String), (3, zoo_Dog)])).2.types 3 =
      .null ∧
    lily_ts_count_unresolved
      (lily_ts_raise_ceiling (apply_writes zoo_ts [(2, zoo_String), (3, zoo_Dog)])).2 = 2 := by
  obtain ⟨_, h2, h3⟩ := raise_zeroes_frame (apply_writes zoo_ts [(2, zoo_String), (3, zoo_Dog)])
  exact ⟨h2 0 (by decide), h2 1 (by decide), h3⟩

/-! ## Capacity after a raise -/

/-- C11 as stated fails: with eight slots allocated, no active frame and
`max_seen = 3`, the raise does not grow the storage, and `max = 8` is not
above `new pos + new ceiling + 2 * max_seen = 9`. -/
theorem raise_capacity_counterexample :
    ¬ ((lily_ts_raise_ceiling zoo_ts_wide).2.max >
      (lily_ts_raise_ceiling zoo_ts_wide).2.pos + (lily_ts_raise_ceiling zoo_ts_wide).2.ceiling +
        2 * zoo_ts_wide.max_seen) := by
  decide

/-- C11, amended: for every state in which one doubling covers the request
(`pos + ceiling + 2 * max_seen < 2 * max`), after `lily_ts_raise_ceiling()` the
capacity exceeds `new pos + 2 * max_seen`, that is the new window plus
`max_seen` further scratch slots; in particular every slot that the raise
clears lies within the capacity. -/
theorem raise_capacity (ts : lily_type_system)
    (h : ts.pos + ts.ceiling + ts.max_seen * 2 < 2 * ts.max) :
    (lily_ts_raise_ceiling ts).2.max >
      (lily_ts_raise_ceiling ts).2.pos + 2 * ts.max_seen ∧
    (lily_ts_raise_ceiling ts).2.max >
      (lily_ts_raise_ceiling ts).2.pos + (lily_ts_raise_ceiling ts).2.ceiling + ts.max_seen ∧
    (∀ i, i < ts.max_seen →
      (lily_ts_raise_ceiling ts).2.pos + i < (lily_ts_raise_ceiling ts).2.max) := by
  obtain ⟨_, r2, r3, _, _, _⟩ := raise_ceiling_spec ts
  have hmax : (lily_ts_raise_ceiling ts).2.max >
      ts.pos + ts.ceiling + ts.max_seen * 2 := by
    simp only [lily_ts_raise_ceiling, (raise_clear_fields _ _ _).2.2.1]
    unfold ENSURE_TYPE_STACK
    split
    · simp only [grow_types]; omega
    · omega
  rw [r2, r3]
  refine ⟨by omega, by omega, fun i hi => by omega⟩

/-- Instance of the amended C11: the raise doubles four slots to eight, which
covers the request of six. -/
theorem raise_capacity_witness :
    (lily_ts_raise_ceiling zoo_ts).2.max = 8 ∧
    (lily_ts_raise_ceiling zoo_ts).2.max >
      (lily_ts_raise_ceiling zoo_ts).2.pos + 2 * zoo_ts.max_seen ∧
    (lily_ts_raise_ceiling zoo_ts).2.pos + 1 < (lily_ts_raise_ceiling zoo_ts).2.max := by
  obtain ⟨h1, _, h3⟩ := raise_capacity zoo_ts (by decide)
  exact ⟨by decide, h1, h3 1 (by decide)⟩

/-- The macro doubles once only: on a fresh type system with `max_seen = 10`
the raise leaves eight slots and clears the indices `0 .. 9`. -/
theorem raise_single_doubling :
    (lily_ts_raise_ceiling zoo_ts_fresh).2.max = 8 ∧
    (lily_ts_raise_ceiling zoo_ts_fresh).2.pos = 0 ∧
    (lily_ts_raise_ceiling zoo_ts_fresh).2.ceiling = 10 := by
  decide

/-! ## The ancestry oracle -/

/-- C17: class ancestry oracle.  When the parent chain above `target` is
finite, `lily_class_greater_eq(candidate, target)` returns, with any fuel
above a bound, and it returns true exactly when `candidate` is `target` or is
met after one or more parent links from `target`; otherwise the walk ends at
a class without parent and the result is false. -/
theorem class_ancestry_oracle (env : Registry) (candidate target : Nat)
    (hfin : chain_ends env target) :
    ∃ N b, (∀ fuel, N ≤ fuel → lily_class_greater_eq env fuel candidate target = .ok b) ∧
      (b = true ↔ (candidate = target ∨ proper_descendant env target candidate)) := by
  by_cases heq : candidate = target
  · refine ⟨0, true, fun fuel _ => ?_, by simp [heq]⟩
    simp [lily_class_greater_eq, heq]
  · by_cases hd : proper_descendant env target candidate
    · obtain ⟨n, hn⟩ := hd
      refine ⟨n + 1, true, fun fuel hf => ?_, by simp [proper_descendant]; right; exact ⟨n, hn⟩⟩
      simp only [lily_class_greater_eq, ne_eq, heq, not_false_eq_true, if_true]
      exact class_walk_found env candidate n target hn fuel hf
    · obtain ⟨k, hk⟩ := hfin
      refine ⟨k, false, fun fuel hf => ?_, by simp [heq, hd]⟩
      simp only [lily_class_greater_eq, ne_eq, heq, not_false_eq_true, if_true]
      refine class_walk_not_found env candidate k (some target) hk (fun j hj hc => ?_) fuel hf
      exact hd ⟨j - 1, by rw [show j - 1 + 1 = j by omega]; exact hc⟩

/-- Instance of C17: Animal is found above Dog. -/
theorem class_ancestry_oracle_witness :
    ∃ N, ∀ fuel, N ≤ fuel → lily_class_greater_eq zoo fuel 20 21 = .ok true := by
  obtain ⟨N, b, h, hb⟩ := class_ancestry_oracle zoo 20 21 ⟨2, by decide⟩
  have hbt : b = true := hb.mpr (Or.inr ⟨0, by decide⟩)
  subst hbt
  exact ⟨N, h⟩

/-! ## The matcher never overwrites a binding -/

theorem only_binds_refl (ts : lily_type_system) : only_binds ts ts :=
  ⟨rfl, rfl, rfl, rfl, fun _ => Or.inl rfl⟩

theorem only_binds_trans {a b c : lily_type_system} (h1 : only_binds a b)
    (h2 : only_binds b c) : only_binds a c := by
  obtain ⟨p1, c1, m1, s1, t1⟩ := h1
  obtain ⟨p2, c2, m2, s2, t2⟩ := h2
  refine ⟨p2.trans p1, c2.trans c1, m2.trans m1, s2.trans s1, fun j => ?_⟩
  rcases t1 j with e1 | ⟨n1, b1⟩
  · rcases t2 j with e2 | ⟨n2, b2⟩
    · exact Or.inl (e2.trans e1)
    · exact Or.inr ⟨by rw [← e1]; exact n2, b2⟩
  · rcases t2 j with e2 | ⟨n2, _⟩
    · exact Or.inr ⟨n1, by rw [e2]; exact b1⟩
    · exact absurd n2 b1

theorem only_binds_set (ts : lily_type_system) (i : Nat) (v : lily_type)
    (hnull : ts.types i = .null) (hv : v ≠ .null) : only_binds ts (set_type ts i v) := by
  refine ⟨rfl, rfl, rfl, rfl, fun j => ?_⟩
  by_cases hj : j = i
  · subst hj
    exact Or.inr ⟨hnull, by simp [set_type, hv]⟩
  · exact Or.inl (by simp [set_type, hj])

theorem check_generic_binds
    (rec : lily_type_system → lily_type → lily_type → Nat → Res (Bool × lily_type_system))
    (hrec : ∀ flags ts l r b ts1, rec ts l r flags = .ok (b, ts1) → only_binds ts ts1)
    (ts : lily_type_system) (left right : lily_type) (flags : Nat) (hr : right ≠ .null)
    (b : Bool) (ts1 : lily_type_system)
    (h : check_generic rec ts left right flags = .ok (b, ts1)) : only_binds ts ts1 := by
  simp only [check_generic] at h
  split at h
  · simp only [Except.ok.injEq, Prod.mk.injEq] at h
    rw [← h.2]
    exact only_binds_refl ts
  split at h
  · cases h
  split at h
  · rename_i hnull
    simp only [Except.ok.injEq, Prod.mk.injEq] at h
    rw [← h.2]
    exact only_binds_set ts _ right hnull hr
  split at h
  · simp only [Except.ok.injEq, Prod.mk.injEq] at h
    rw [← h.2]
    exact only_binds_refl ts
  split at h
  · exact hrec _ _ _ _ _ _ h
  · simp only [Except.ok.injEq, Prod.mk.injEq] at h
    rw [← h.2]
    exact only_binds_refl ts

theorem check_enum_loop_binds_only
    (rec : lily_type_system → lily_type → lily_type → Nat → Res (Bool × lily_type_system))
    (left right vo : lily_type) (flags : Nat)
    (hrec : ∀ flags ts l r b ts1, rec ts l r flags = .ok (b, ts1) → only_binds ts ts1) :
    ∀ (n i : Nat) (ts : lily_type_system) (b : Bool) (ts1 : lily_type_system),
      check_enum_loop rec left right vo flags n i ts = .ok (b, ts1) → only_binds ts ts1
  | 0, _, ts, b, ts1, h => by
      simp only [check_enum_loop, Except.ok.injEq, Prod.mk.injEq] at h
      rw [← h.2]
      exact only_binds_refl ts
  | n + 1, i, ts, b, ts1, h => by
      simp only [check_enum_loop] at h
      split at h
      · cases h
      split at h
      · cases h
      split at h
      · cases h
      split at h
      · cases h
      split at h
      · cases h
      rename_i ret ts2 hstep
      have h2 := hrec _ _ _ _ _ _ hstep
      split at h
      · simp only [Except.ok.injEq, Prod.mk.injEq] at h
        rw [← h.2]
        exact h2
      · exact only_binds_trans h2
          (check_enum_loop_binds_only rec left right vo flags hrec n (i + 1) _ b ts1 h)

theorem check_function_loop_binds_only (env : Registry)
    (rec : lily_type_system → lily_type → lily_type → Nat → Res (Bool × lily_type_system))
    (left right : lily_type) (flags : Nat)
    (hrec : ∀ flags ts l r b ts1, rec ts l r flags = .ok (b, ts1) → only_binds ts ts1) :
    ∀ (n i : Nat) (ts : lily_type_system) (b : Bool) (ts1 : lily_type_system),
      check_function_loop env rec left right flags n i ts = .ok (b, ts1) → only_binds ts ts1
  | 0, _, ts, b, ts1, h => by
      simp only [check_function_loop, Except.ok.injEq, Prod.mk.injEq] at h
      rw [← h.2]
      exact only_binds_refl ts
  | n + 1, i, ts, b, ts1, h => by
      simp only [check_function_loop] at h
      split at h
      · cases h
      split at h
      · cases h
      split at h
      · cases h
      split at h
      · cases h
      split at h
      · cases h
      rename_i ret ts2 hstep
      have h2 := hrec _ _ _ _ _ _ hstep
      split at h
      · simp only [Except.ok.injEq, Prod.mk.injEq] at h
        rw [← h.2]
        exact h2
      · exact only_binds_trans h2
          (check_function_loop_binds_only env rec left right flags hrec n (i + 1) _ b ts1 h)

theorem check_misc_loop_binds_only
    (rec : lily_type_system → lily_type → lily_type → Nat → Res (Bool × lily_type_system))
    (left right : lily_type) (flags : Nat)
    (hrec : ∀ flags ts l r b ts1, rec ts l r flags = .ok (b, ts1) → only_binds ts ts1) :
    ∀ (n i : Nat) (ts : lily_type_system) (b : Bool) (ts1 : lily_type_system),
      check_misc_loop rec left right flags n i ts = .ok (b, ts1) → only_binds ts ts1
  | 0, _, ts, b, ts1, h => by
      simp only [check_misc_loop, Except.ok.injEq, Prod.mk.injEq] at h
      rw [← h.2]
      exact only_binds_refl ts
  | n + 1, i, ts, b, ts1, h => by
      simp only [check_misc_loop] at h
      split at h
      · cases h
      split at h
      · cases h
      split at h
      · split at h
        · cases h
        rename_i ret ts2 hstep
        have h2 := hrec _ _ _ _ _ _ hstep
        split at h
        · simp only [Except.ok.injEq, Prod.mk.injEq] at h
          rw [← h.2]
          exact h2
        · exact only_binds_trans h2
            (check_misc_loop_binds_only rec left right flags hrec n (i + 1) _ b ts1 h)
      · exact check_misc_loop_binds_only rec left right flags hrec n (i + 1) _ b ts1 h

theorem check_enum_binds_only (env : Registry)
    (rec : lily_type_system → lily_type → lily_type → Nat → Res (Bool × lily_type_system))
    (hrec : ∀ flags ts l r b ts1, rec ts l r flags = .ok (b, ts1) → only_binds ts ts1)
    (ts : lily_type_system) (left right : lily_type) (flags : Nat)
    (b : Bool) (ts1 : lily_type_system)
    (h : check_enum env rec ts left right flags = .ok (b, ts1)) : only_binds ts ts1 := by
  simp only [check_enum] at h
  split at h
  · cases h
  split at h
  · cases h
  split at h
  · split at h
    · cases h
    split at h
    · cases h
    exact check_enum_loop_binds_only rec left right _ _ hrec _ _ _ _ _ h
  · simp only [Except.ok.injEq, Prod.mk.injEq] at h
    rw [← h.2]
    exact only_binds_refl ts

theorem check_function_binds_only (env : Registry)
    (rec : lily_type_system → lily_type → lily_type → Nat → Res (Bool × lily_type_system))
    (hrec : ∀ flags ts l r b ts1, rec ts l r flags = .ok (b, ts1) → only_binds ts ts1)
    (ts : lily_type_system) (left right : lily_type) (flags : Nat)
    (b : Bool) (ts1 : lily_type_system)
    (h : check_function env rec ts left right flags = .ok (b, ts1)) : only_binds ts ts1 := by
  simp only [check_function] at h
  split at h
  · cases h
  split at h
  · cases h
  split at h
  · cases h
  rename_i r ts2 hstep
  have h2 := hrec _ _ _ _ _ _ hstep
  split at h
  · cases h
  split at h
  · cases h
  split at h
  · simp only [Bool.false_eq_true, if_false, Except.ok.injEq, Prod.mk.injEq] at h
    rw [← h.2]
    exact h2
  · split at h
    · exact only_binds_trans h2
        (check_function_loop_binds_only env rec left right _ hrec _ _ _ _ _ h)
    · simp only [Except.ok.injEq, Prod.mk.injEq] at h
      rw [← h.2]
      exact h2

theorem check_misc_binds_only (env : Registry) (fuel : Nat)
    (rec : lily_type_system → lily_type → lily_type → Nat → Res (Bool × lily_type_system))
    (hrec : ∀ flags ts l r b ts1, rec ts l r flags = .ok (b, ts1) → only_binds ts ts1)
    (ts : lily_type_system) (left right : lily_type) (flags : Nat)
    (b : Bool) (ts1 : lily_type_system)
    (h : check_misc env fuel rec ts left right flags = .ok (b, ts1)) : only_binds ts ts1 := by
  simp only [check_misc] at h
  split at h
  · cases h
  split at h
  · exact check_misc_loop_binds_only rec left right _ hrec _ _ _ _ _ h
  · simp only [Except.ok.injEq, Prod.mk.injEq] at h
    rw [← h.2]
    exact only_binds_refl ts

theorem check_raw_binds_only (env : Registry) :
    ∀ (fuel : Nat) (flags : Nat) (ts : lily_type_system) (l r : lily_type) (b : Bool)
      (ts1 : lily_type_system),
      check_raw env fuel ts l r flags = .ok (b, ts1) → only_binds ts ts1
  | 0, _, _, _, _, _, _, h => by simp [check_raw] at h
  | fuel + 1, flags, ts, l, r, b, ts1, h => by
      have ih : ∀ flags ts l r b ts1, check_raw env fuel ts l r flags = .ok (b, ts1) →
          only_binds ts ts1 := fun flags => check_raw_binds_only env fuel flags
      simp only [check_raw] at h
      split at h
      · simp only [Except.ok.injEq, Prod.mk.injEq] at h
        rw [← h.2]
        exact only_binds_refl ts
      rename_i hnn
      split at h
      · cases h
      split at h
      · cases h
      split at h
      · exact check_generic_binds _ ih ts l r flags (fun e => hnn (Or.inr e)) b ts1 h
      split at h
      · exact check_enum_binds_only env _ ih ts l r flags b ts1 h
      split at h
      · exact check_function_binds_only env _ ih ts l r flags b ts1 h
      · exact check_misc_binds_only env fuel _ ih ts l r flags b ts1 h

/-- C19: the matcher never overwrites a binding.  For all types, every mode
(any `flags`) and every state, whenever `check_raw(left, right, flags)`
returns, true or false, the state it leaves has the same `pos`, `ceiling`,
`max` and `max_seen`, and every slot either holds what it held before or was
absent and is bound now; a slot that was bound keeps its value. -/
theorem matcher_never_overwrites (env : Registry) (fuel : Nat) (flags : Nat)
    (ts : lily_type_system) (left right : lily_type) (b : Bool) (ts1 : lily_type_system)
    (h : check_raw env fuel ts left right flags = .ok (b, ts1)) :
    ts1.pos = ts.pos ∧ ts1.ceiling = ts.ceiling ∧ ts1.max = ts.max ∧
    (∀ j, ts1.types j = ts.types j ∨ (ts.types j = .null ∧ ts1.types j ≠ .null)) ∧
    (∀ j, ts.types j ≠ .null → ts1.types j = ts.types j) := by
  obtain ⟨h1, h2, h3, _, h5⟩ := check_raw_binds_only env fuel flags ts left right b ts1 h
  refine ⟨h1, h2, h3, h5, fun j hj => ?_⟩
  rcases h5 j with e | ⟨n, _⟩
  · exact e
  · exact absurd n hj

/-- Instance of C19: `Tuple[B, A]` against `Tuple[String, String]` with `A`
bound to Integer returns false after binding `B`; the slot of `A` still holds
Integer. -/
theorem matcher_never_overwrites_witness :
    ∃ ts1, check_raw zoo 3 zoo_ts_int (.node 8 0 0 [zoo_B, zoo_A])
        (.node 8 0 0 [zoo_String, zoo_String]) 0 = .ok (false, ts1) ∧
      ts1.pos = zoo_ts_int.pos ∧ ts1.ceiling = zoo_ts_int.ceiling ∧
      ts1.max = zoo_ts_int.max ∧ ts1.types 0 = zoo_Integer := by
  have hd : ret_of (check_raw zoo 3 zoo_ts_int (.node 8 0 0 [zoo_B, zoo_A])
      (.node 8 0 0 [zoo_String, zoo_String]) 0) = some false := by decide
  cases hres : check_raw zoo 3 zoo_ts_int (.node 8 0 0 [zoo_B, zoo_A])
      (.node 8 0 0 [zoo_String, zoo_String]) 0 with
  | error e =>
    rw [hres] at hd
    cases hd
  | ok p =>
    obtain ⟨b, ts1⟩ := p
    rw [hres] at hd
    simp only [ret_of, Option.some.injEq] at hd
    subst hd
    obtain ⟨h1, h2, h3, _, h5⟩ := matcher_never_overwrites zoo 3 0 zoo_ts_int
      (.node 8 0 0 [zoo_B, zoo_A]) (.node 8 0 0 [zoo_String, zoo_String]) false ts1 hres
    exact ⟨ts1, rfl, h1, h2, h3, h5 0 (by decide)⟩

/-! ## Subtype comparisons of plain composite types -/

/-- The index loop of `check_misc` is the pairwise comparison of the subtypes
from index `i` on. -/
theorem check_misc_loop_eq
    (rec : lily_type_system → lily_type → lily_type → Nat → Res (Bool × lily_type_system))
    (lc lf lg : Nat) (ls : List lily_type) (rc rf rg : Nat) (rs : List lily_type)
    (flags : Nat) :
    ∀ (n i : Nat) (ts : lily_type_system), i + n ≤ ls.length → i + n ≤ rs.length →
      check_misc_loop rec (.node lc lf lg ls) (.node rc rf rg rs) flags n i ts =
        compare_pairs rec flags (((ls.zip rs).drop i).take n) ts
  | 0, _, _, _, _ => by simp [check_misc_loop, compare_pairs]
  | n + 1, i, ts, hl, hr => by
      have hil : i < ls.length := by omega
      have hir : i < rs.length := by omega
      have hz : i < (ls.zip rs).length := by
        simp only [List.length_zip]; omega
      have hlist : ((ls.zip rs).drop i).take (n + 1) =
          (ls[i], rs[i]) :: ((ls.zip rs).drop (i + 1)).take n := by
        rw [List.drop_eq_getElem_cons hz, List.take_succ_cons, List.getElem_zip]
      have ih := check_misc_loop_eq rec lc lf lg ls rc rf rg rs flags n (i + 1)
      rw [hlist]
      simp only [check_misc_loop, subtype_at_node lc lf lg ls i hil,
        subtype_at_node rc rf rg rs i hir, compare_pairs]
      by_cases he : ls[i] = rs[i]
      · rw [if_neg (by simpa using he), if_pos he]
        exact ih ts (by omega) (by omega)
      · rw [if_pos he, if_neg he]
        cases hrec : rec ts ls[i] rs[i] flags with
        | error e => rfl
        | ok p =>
          obtain ⟨ret, ts1⟩ := p
          cases ret with
          | false => simp
          | true =>
            simp only [Bool.true_eq_false, if_false]
            exact ih ts1 (by omega) (by omega)

theorem compare_pairs_true
    (check : lily_type_system → lily_type → lily_type → Nat → Res (Bool × lily_type_system))
    (flags : Nat) :
    ∀ (pairs : List (lily_type × lily_type)) (ts ts1 : lily_type_system),
      compare_pairs check flags pairs ts = .ok (true, ts1) →
      ∀ p ∈ pairs, p.1 ≠ p.2 → ∃ s s1, check s p.1 p.2 flags = .ok (true, s1)
  | [], _, _, _, p, hp, _ => by simp at hp
  | q :: rest, ts, ts1, h, p, hp, hne => by
      simp only [compare_pairs] at h
      by_cases he : q.1 = q.2
      · rw [if_pos he] at h
        rcases List.mem_cons.mp hp with e | hm
        · subst e
          exact absurd he hne
        · exact compare_pairs_true check flags rest ts ts1 h p hm hne
      · rw [if_neg he] at h
        cases hrec : check ts q.1 q.2 flags with
        | error e =>
          rw [hrec] at h
          cases h
        | ok r =>
          obtain ⟨ret, ts2⟩ := r
          rw [hrec] at h
          cases ret with
          | false => simp at h
          | true =>
            simp only at h
            rcases List.mem_cons.mp hp with e | hm
            · subst e
              exact ⟨ts, ts2, hrec⟩
            · exact compare_pairs_true check flags rest ts2 ts1 h p hm hne

theorem compare_pairs_false
    (check : lily_type_system → lily_type → lily_type → Nat → Res (Bool × lily_type_system))
    (flags : Nat) :
    ∀ (pairs : List (lily_type × lily_type)) (ts ts1 : lily_type_system),
      compare_pairs check flags pairs ts = .ok (false, ts1) →
      ∃ p ∈ pairs, p.1 ≠ p.2 ∧ ∃ s, check s p.1 p.2 flags = .ok (false, ts1)
  | [], _, _, h => by simp [compare_pairs] at h
  | q :: rest, ts, ts1, h => by
      simp only [compare_pairs] at h
      by_cases he : q.1 = q.2
      · rw [if_pos he] at h
        obtain ⟨p, hp, hr⟩ := compare_pairs_false check flags rest ts ts1 h
        exact ⟨p, List.mem_cons_of_mem _ hp, hr⟩
      · rw [if_neg he] at h
        cases hrec : check ts q.1 q.2 flags with
        | error e =>
          rw [hrec] at h
          cases h
        | ok r =>
          obtain ⟨ret, ts2⟩ := r
          rw [hrec] at h
          cases ret with
          | false =>
            simp only [Except.ok.injEq, Prod.mk.injEq, true_and] at h
            subst h
            exact ⟨q, List.mem_cons_self _ _, he, ts, hrec⟩
          | true =>
            simp only at h
            obtain ⟨p, hp, hr⟩ := compare_pairs_false check flags rest ts2 ts1 h
            exact ⟨p, List.mem_cons_of_mem _ hp, hr⟩

/-- On plain composite types whose class-level check passes, `check_raw` is
the pairwise comparison of the first `num_subtypes` subtype pairs by
`check_raw` itself with `flags & T_DONT_SOLVE`. -/
theorem check_raw_plain_pairs (env : Registry) (fuel flags : Nat) (ts : lily_type_system)
    (lc lf lg : Nat) (ls : List lily_type) (rc rf rg : Nat) (rs : List lily_type) (n : Nat)
    (hgen : (env.classes lc).id ≠ env.SYM_CLASS_GENERIC)
    (henum : ¬ ((env.classes lc).flags &&& env.CLS_IS_ENUM ≠ 0 ∧
      (env.classes rc).flags &&& env.CLS_IS_VARIANT ≠ 0 ∧
      (env.classes rc).parent = some lc))
    (hfn : ¬ ((env.classes lc).id = env.SYM_CLASS_FUNCTION ∧
      (env.classes rc).id = env.SYM_CLASS_FUNCTION))
    (hcls : class_level_check env fuel (.node lc lf lg ls) (.node rc rf rg rs) flags =
      .ok (true, n))
    (hl : n ≤ ls.length) (hr : n ≤ rs.length) :
    check_raw env (fuel + 1) ts (.node lc lf lg ls) (.node rc rf rg rs) flags =
      compare_pairs (check_raw env fuel) (flags &&& T_DONT_SOLVE) ((ls.zip rs).take n) ts := by
  have hnn : ¬ (lily_type.node lc lf lg ls = lily_type.null ∨
      lily_type.node rc rf rg rs = lily_type.null) := by simp
  have hmisc : check_misc env fuel (check_raw env fuel) ts (.node lc lf lg ls)
      (.node rc rf rg rs) flags =
      compare_pairs (check_raw env fuel) (flags &&& T_DONT_SOLVE) ((ls.zip rs).take n) ts := by
    unfold class_level_check at hcls
    unfold check_misc
    rw [hcls]
    by_cases hn : n = 0
    · subst hn
      simp [compare_pairs]
    · simp only []
      rw [check_misc_loop_eq (check_raw env fuel) lc lf lg ls rc rf rg rs _ n 0 ts
        (by omega) (by omega), List.drop_zero]
      simp [hn]
  rw [← hmisc]
  simp only [check_raw, hnn, if_false, cls_of_node, hgen, henum, hfn]

/-- C18 as stated fails: `lily_ts_check(C[A], C[Integer])` on a plain class
`C` with the slot of `A` absent binds that slot to Integer. -/
theorem subtype_comparison_counterexample :
    plain_class zoo 6 = true ∧ is_generic zoo zoo_A = true ∧
    zoo_ts.types (zoo_ts.pos + zoo_A.gpos) = .null ∧ is_concrete zoo zoo_Integer = true ∧
    (state_of (lily_ts_check zoo 3 zoo_ts (.node 6 0 0 [zoo_A])
      (.node 6 0 0 [zoo_Integer]))).map (fun t => t.types (zoo_ts.pos + zoo_A.gpos)) =
        some zoo_Integer := by
  decide

/-- C18, amended: for plain composite types (the left class is not the
generic class, the pair is neither enum against variant nor function against
function) whose class-level check passes under any mode with `num_subtypes`
subtypes present on both sides, `check_raw` compares the same-indexed subtype
pairs in order, skips an identical pair, compares every other pair with
`flags & T_DONT_SOLVE` and fails at the first failed comparison: when it
returns true every non-identical pair was compared with success, when it
returns false some non-identical pair was compared and failed.  The flags
`flags & T_DONT_SOLVE` carry no variance and keep the solving bit of the
caller.  In particular, for a plain class `C` with one subtype, a placeholder
`g` whose slot is absent and a non-absent type `T` other than `g`,
`lily_ts_check(C[g], C[T])` returns true and binds the slot of `g` to `T`. -/
theorem subtype_comparison_keeps_solving (env : Registry) :
    (∀ (fuel flags : Nat) (ts : lily_type_system) (lc lf lg : Nat) (ls : List lily_type)
        (rc rf rg : Nat) (rs : List lily_type) (n : Nat),
      (env.classes lc).id ≠ env.SYM_CLASS_GENERIC →
      ¬ ((env.classes lc).flags &&& env.CLS_IS_ENUM ≠ 0 ∧
        (env.classes rc).flags &&& env.CLS_IS_VARIANT ≠ 0 ∧
        (env.classes rc).parent = some lc) →
      ¬ ((env.classes lc).id = env.SYM_CLASS_FUNCTION ∧
        (env.classes rc).id = env.SYM_CLASS_FUNCTION) →
      class_level_check env fuel (.node lc lf lg ls) (.node rc rf rg rs) flags =
        .ok (true, n) →
      n ≤ ls.length → n ≤ rs.length →
      check_raw env (fuel + 1) ts (.node lc lf lg ls) (.node rc rf rg rs) flags =
        compare_pairs (check_raw env fuel) (flags &&& T_DONT_SOLVE)
          ((ls.zip rs).take n) ts ∧
      (∀ ts1, check_raw env (fuel + 1) ts (.node lc lf lg ls) (.node rc rf rg rs) flags =
          .ok (true, ts1) →
        ∀ p ∈ (ls.zip rs).take n, p.1 ≠ p.2 →
          ∃ s s1, check_raw env fuel s p.1 p.2 (flags &&& T_DONT_SOLVE) = .ok (true, s1)) ∧
      (∀ ts1, check_raw env (fuel + 1) ts (.node lc lf lg ls) (.node rc rf rg rs) flags =
          .ok (false, ts1) →
        ∃ p ∈ (ls.zip rs).take n, p.1 ≠ p.2 ∧
          ∃ s, check_raw env fuel s p.1 p.2 (flags &&& T_DONT_SOLVE) = .ok (false, ts1))) ∧
    (∀ flags : Nat, (flags &&& T_DONT_SOLVE) &&& (T_COVARIANT ||| T_CONTRAVARIANT) = 0 ∧
      (flags &&& T_DONT_SOLVE) &&& T_DONT_SOLVE = flags &&& T_DONT_SOLVE) ∧
    (∀ (fuel : Nat) (ts : lily_type_system) (c f1 g1 f2 g2 : Nat) (g T : lily_type),
      plain_class env c = true → is_generic env g = true →
      ts.types (ts.pos + g.gpos) = .null → T ≠ .null → g ≠ T → 2 ≤ fuel →
      lily_ts_check env fuel ts (.node c f1 g1 [g]) (.node c f2 g2 [T]) =
        .ok (true, set_type ts (ts.pos + g.gpos) T)) := by
  refine ⟨?_, fun flags => ⟨?_, ?_⟩, ?_⟩
  · intro fuel flags ts lc lf lg ls rc rf rg rs n hgen henum hfn hcls hl hr
    have heq := check_raw_plain_pairs env fuel flags ts lc lf lg ls rc rf rg rs n
      hgen henum hfn hcls hl hr
    refine ⟨heq, fun ts1 h => ?_, fun ts1 h => ?_⟩
    · rw [heq] at h
      exact compare_pairs_true _ _ _ ts ts1 h
    · rw [heq] at h
      exact compare_pairs_false _ _ _ ts ts1 h
  · rw [Nat.and_assoc]
    have : T_DONT_SOLVE &&& (T_COVARIANT ||| T_CONTRAVARIANT) = 0 := by decide
    rw [this, Nat.and_zero]
  · rw [Nat.and_assoc, Nat.and_self]
  · intro fuel ts c f1 g1 f2 g2 g T hc hg hslot hT hne hfuel
    obtain ⟨k, rfl⟩ : ∃ k, fuel = k + 2 := ⟨fuel - 2, by omega⟩
    obtain ⟨h1, h2, _, h4, _⟩ := plain_class_spec hc
    have hz : (0 &&& T_DONT_SOLVE) = 0 := by decide
    rw [lily_ts_check, check_raw_plain_pairs env (k + 1) 0 ts c f1 g1 [g] c f2 g2 [T] 1 h1
      (by simp [h4]) (by simp [h2])
      (by simp [class_level_check, T_COVARIANT, T_CONTRAVARIANT, invariant_check])
      (by simp) (by simp)]
    simp only [List.zip_cons_cons, List.zip_nil_right, List.take_succ_cons, List.take_zero,
      compare_pairs, hne, if_false, hz, check_raw_bind env k ts g T hg hT hslot]

/-- Instance of the amended C18: `Tuple[B, A]` against `Tuple[String, String]`
with `A` bound to Integer returns false, and the failed comparison is that of
the second pair, reached after the first pair was compared and bound `B`; and
`C[A]` against `C[Integer]` in an empty frame binds `A`. -/
theorem subtype_comparison_keeps_solving_witness :
    (∃ ts1, check_raw zoo 3 zoo_ts_int (.node 8 0 0 [zoo_B, zoo_A])
        (.node 8 0 0 [zoo_String, zoo_String]) 0 = .ok (false, ts1) ∧
      ∃ p ∈ [(zoo_B, zoo_String), (zoo_A, zoo_String)], p.1 ≠ p.2 ∧
        ∃ s, check_raw zoo 2 s p.1 p.2 (0 &&& T_DONT_SOLVE) = .ok (false, ts1)) ∧
    lily_ts_check zoo 2 zoo_ts (.node 6 0 0 [zoo_A]) (.node 6 0 0 [zoo_Integer]) =
      .ok (true, set_type zoo_ts (zoo_ts.pos + zoo_A.gpos) zoo_Integer) := by
  obtain ⟨hgeneral, _, hbind⟩ := subtype_comparison_keeps_solving zoo
  refine ⟨?_, hbind 2 zoo_ts 6 0 0 0 0 zoo_A zoo_Integer (by decide) (by decide) (by decide)
    (by decide) (by decide) (by decide)⟩
  obtain ⟨_, _, hfalse⟩ := hgeneral 2 0 zoo_ts_int 8 0 0 [zoo_B, zoo_A] 8 0 0
    [zoo_String, zoo_String] 2 (by decide) (by decide) (by decide) rfl (by decide)
    (by decide)
  have hd : ret_of (check_raw zoo 3 zoo_ts_int (.node 8 0 0 [zoo_B, zoo_A])
      (.node 8 0 0 [zoo_String, zoo_String]) 0) = some false := by decide
  cases hres : check_raw zoo 3 zoo_ts_int (.node 8 0 0 [zoo_B, zoo_A])
      (.node 8 0 0 [zoo_String, zoo_String]) 0 with
  | error e =>
    rw [hres] at hd
    cases hd
  | ok r =>
    obtain ⟨b, ts1⟩ := r
    rw [hres] at hd
    simp only [ret_of, Option.some.injEq] at hd
    subst hd
    exact ⟨ts1, rfl, hfalse ts1 hres⟩

/-! ## Back-filling from an enum type -/

/-- C16 fails on the code: for the variant `Both(A, B)` of `Either[A, B]`,
`lily_ts_resolve_as_variant_by_enum(Both[Integer, String], Either[Integer,
String])` on an empty frame writes slot 0 twice and leaves slot 1 absent,
because the loop reads `variant_type->subtypes[0]` on every round. -/
theorem variant_by_enum_first_only :
    first_slots (lily_ts_resolve_as_variant_by_enum duo zoo_ts
      (.node 41 0 0 [zoo_Integer, zoo_String]) (.node 40 0 0 [zoo_Integer, zoo_String])) =
      some (zoo_Integer, .null) := by
  decide

/-! ## The resolver -/

theorem frame_kept_refl (gi n base : Nat) (ts : lily_type_system) :
    frame_kept gi n base ts ts :=
  ⟨rfl, rfl, rfl, le_refl _, fun _ _ => Or.inl rfl⟩

theorem frame_kept_trans {gi n b1 b2 : Nat} {a b c : lily_type_system} (hb : b1 ≤ b2)
    (h1 : frame_kept gi n b1 a b) (h2 : frame_kept gi n b2 b c) : frame_kept gi n b1 a c := by
  obtain ⟨c1, s1, a1, m1, t1⟩ := h1
  obtain ⟨c2, s2, a2, m2, t2⟩ := h2
  refine ⟨c2.trans c1, s2.trans s1, a2.trans a1, le_trans m1 m2, fun j hj => ?_⟩
  rcases t1 j hj with e1 | ⟨n1, v1, l1, u1⟩
  · rcases t2 j (by omega) with e2 | ⟨n2, v2, l2, u2⟩
    · exact Or.inl (e2.trans e1)
    · exact Or.inr ⟨by rw [← e1]; exact n2, by rw [v2, a1], l2, u2⟩
  · rcases t2 j (by omega) with e2 | ⟨_, v2, _, _⟩
    · exact Or.inr ⟨n1, by rw [e2, v1], l1, u1⟩
    · exact Or.inr ⟨n1, by rw [v2, a1], l1, u1⟩

theorem slot_value_kept {gi n base : Nat} {ts ts1 : lily_type_system}
    (h : frame_kept gi n base ts ts1) (hb : gi + n ≤ base) (k : Nat) (hk : k < n) :
    slot_value ts1 gi k = slot_value ts gi k := by
  obtain ⟨_, _, ha, _, ht⟩ := h
  unfold slot_value
  rcases ht (gi + k) (by omega) with e | ⟨n1, v1, _, _⟩
  · rw [e, ha]
  · rw [v1, n1, ha]
    simp

mutual
theorem substitute_congr (env : Registry) (mk : Nat → Nat → List lily_type → lily_type)
    (σ τ : Nat → lily_type) (n : Nat) (h : ∀ k, k < n → σ k = τ k) :
    ∀ (T : lily_type), generics_below env n T = true →
      substitute env mk σ T = substitute env mk τ T
  | .null, _ => by simp [substitute]
  | .node c f g subs, hg => by
      simp only [generics_below, Bool.and_eq_true, Bool.or_eq_true, decide_eq_true_eq] at hg
      simp only [substitute]
      rw [substitute_all_congr env mk σ τ n h subs hg.2]
      by_cases hs : subs ≠ []
      · rw [if_pos hs, if_pos hs]
      · rw [if_neg hs, if_neg hs]
        by_cases hid : (env.classes c).id = env.SYM_CLASS_GENERIC
        · rw [if_pos hid, if_pos hid]
          rcases hg.1 with h1 | ⟨_, h2⟩
          · exact absurd hid h1
          · exact h g h2
        · rw [if_neg hid, if_neg hid]
theorem substitute_all_congr (env : Registry) (mk : Nat → Nat → List lily_type → lily_type)
    (σ τ : Nat → lily_type) (n : Nat) (h : ∀ k, k < n → σ k = τ k) :
    ∀ (l : List lily_type), all_generics_below env n l = true →
      substitute_all env mk σ l = substitute_all env mk τ l
  | [], _ => by simp [substitute_all]
  | t :: rest, hg => by
      simp only [all_generics_below, Bool.and_eq_true] at hg
      simp only [substitute_all]
      rw [substitute_congr env mk σ τ n h t hg.1, substitute_all_congr env mk σ τ n h rest hg.2]
end

theorem substitute_all_length (env : Registry) (mk : Nat → Nat → List lily_type → lily_type)
    (σ : Nat → lily_type) : ∀ (l : List lily_type), (substitute_all env mk σ l).length = l.length
  | [] => by simp [substitute_all]
  | _ :: rest => by simp [substitute_all, substitute_all_length env mk σ rest]

theorem ENSURE_TYPE_STACK_kept (gi n base : Nat) (ts : lily_type_system) (k : Nat) :
    (ENSURE_TYPE_STACK ts k).pos = ts.pos ∧ frame_kept gi n base ts (ENSURE_TYPE_STACK ts k) := by
  obtain ⟨e1, e2, e3, e4, e5⟩ := ENSURE_TYPE_STACK_fields ts k
  refine ⟨e1, e2, e3, ?_, e5, fun j _ => Or.inl (by rw [e4])⟩
  unfold ENSURE_TYPE_STACK
  split <;> rfl

theorem frame_kept_stage {gi n base : Nat} {ts r : lily_type_system} (v : lily_type)
    (hk : frame_kept gi n base ts r) (hpos : r.pos = base) :
    frame_kept gi n base ts { set_type r r.pos v with pos := (set_type r r.pos v).pos + 1 } := by
  obtain ⟨c1, s1, a1, m1, t1⟩ := hk
  refine ⟨c1, s1, a1, m1, fun j hj => ?_⟩
  have hne : j ≠ r.pos := by omega
  have : ({ set_type r r.pos v with pos := (set_type r r.pos v).pos + 1 } :
      lily_type_system).types j = r.types j := by
    simp [set_type, hne]
  rw [this]
  exact t1 j hj

mutual
theorem deep_type_build_spec (env : Registry) (gi n : Nat) :
    ∀ (T : lily_type) (ts : lily_type_system) (tm : lily_type_maker),
      generics_below env n T = true → gi + n ≤ ts.pos →
      (deep_type_build env gi T ts tm).1 = substitute env tm.build (slot_value ts gi) T ∧
      (deep_type_build env gi T ts tm).2.1.pos = ts.pos ∧
      frame_kept gi n ts.pos ts (deep_type_build env gi T ts tm).2.1 ∧
      (deep_type_build env gi T ts tm).2.2.build = tm.build ∧
      (deep_type_build env gi T ts tm).2.2.calls = tm.calls + composite_count T
  | .null, ts, tm, _, _ => by
      simp [deep_type_build, substitute, composite_count, frame_kept_refl]
  | .node c f g subs, ts, tm, hg, hp => by
      simp only [generics_below, Bool.and_eq_true, Bool.or_eq_true, decide_eq_true_eq] at hg
      by_cases hs : subs ≠ []
      · obtain ⟨e1, ek⟩ := ENSURE_TYPE_STACK_kept gi n ts.pos ts (ts.pos + subs.length)
        obtain ⟨lpos, lkept, lread, lbuild, lcalls⟩ :=
          deep_type_build_loop_spec env gi n subs (ENSURE_TYPE_STACK ts (ts.pos + subs.length))
            tm hg.2 (by rw [e1]; exact hp)
        rw [e1] at lpos lkept lread
        have hsv : ∀ k, k < n →
            slot_value (ENSURE_TYPE_STACK ts (ts.pos + subs.length)) gi k =
              slot_value ts gi k :=
          fun k hk => slot_value_kept ek hp k hk
        rw [substitute_all_congr env tm.build _ _ n hsv subs hg.2] at lread
        simp only [deep_type_build, if_pos hs, lily_tm_raw_make, substitute, composite_count,
          e1, lread, lbuild, lcalls, lpos, Nat.add_sub_cancel, if_true, true_and]
        refine ⟨?_, by omega⟩
        obtain ⟨c2, s2, a2, m2, t2⟩ := frame_kept_trans (le_refl _) ek lkept
        exact ⟨c2, s2, a2, m2, t2⟩
      · have hnil : subs = [] := by simpa using hs
        subst hnil
        by_cases hid : (env.classes c).id = env.SYM_CLASS_GENERIC
        · have hgn : g < n := by
            rcases hg.1 with h1 | ⟨_, h2⟩
            · exact absurd hid h1
            · exact h2
          by_cases hnull : ts.types (gi + g) = .null
          · simp only [deep_type_build, if_neg hs, if_pos hid, if_pos hnull, substitute,
              slot_value, composite_count, composite_count_all, if_false, Nat.add_zero, true_and]
            refine ⟨rfl, ⟨rfl, rfl, rfl, le_refl _, fun j hj => ?_⟩, trivial⟩
            by_cases hj2 : j = gi + g
            · subst hj2
              exact Or.inr ⟨hnull, by simp [set_type], by omega, by omega⟩
            · exact Or.inl (by simp [set_type, hj2])
          · simp only [deep_type_build, if_neg hs, if_pos hid, if_neg hnull, substitute,
              slot_value, composite_count, composite_count_all, if_false, Nat.add_zero, true_and]
            exact ⟨frame_kept_refl _ _ _ _, trivial⟩
        · simp only [deep_type_build, if_neg hs, if_neg hid, substitute, composite_count,
            composite_count_all, if_false, Nat.add_zero, true_and]
          exact ⟨frame_kept_refl _ _ _ _, trivial⟩
theorem deep_type_build_loop_spec (env : Registry) (gi n : Nat) :
    ∀ (l : List lily_type) (ts : lily_type_system) (tm : lily_type_maker),
      all_generics_below env n l = true → gi + n ≤ ts.pos →
      (deep_type_build_loop env gi l ts tm).1.pos = ts.pos + l.length ∧
      frame_kept gi n ts.pos ts (deep_type_build_loop env gi l ts tm).1 ∧
      read_types (deep_type_build_loop env gi l ts tm).1.types ts.pos l.length =
        substitute_all env tm.build (slot_value ts gi) l ∧
      (deep_type_build_loop env gi l ts tm).2.build = tm.build ∧
      (deep_type_build_loop env gi l ts tm).2.calls = tm.calls + composite_count_all l
  | [], ts, tm, _, _ => by
      simp [deep_type_build_loop, substitute_all, composite_count_all, read_types,
        frame_kept_refl]
  | t :: rest, ts, tm, hg, hp => by
      simp only [all_generics_below, Bool.and_eq_true] at hg
      obtain ⟨h1, h2, h3, h4, h5⟩ := deep_type_build_spec env gi n t ts tm hg.1 hp
      simp only [deep_type_build_loop, List.length_cons, read_types, substitute_all,
        composite_count_all]
      generalize deep_type_build env gi t ts tm = r at h1 h2 h3 h4 h5 ⊢
      obtain ⟨ret, ts1, tm1⟩ := r
      simp only at h1 h2 h3 h4 h5
      have hk2 := frame_kept_stage ret h3 h2
      obtain ⟨l1, l2, l3, l4, l5⟩ := deep_type_build_loop_spec env gi n rest
        { set_type ts1 ts1.pos ret with pos := (set_type ts1 ts1.pos ret).pos + 1 } tm1 hg.2
        (by simp only [set_type]; omega)
      have hpos2 : ({ set_type ts1 ts1.pos ret with pos := (set_type ts1 ts1.pos ret).pos + 1 } :
          lily_type_system).pos = ts.pos + 1 := by
        simp only [set_type]; omega
      rw [hpos2] at l1 l2 l3
      have hsv : ∀ k, k < n →
          slot_value { set_type ts1 ts1.pos ret with
            pos := (set_type ts1 ts1.pos ret).pos + 1 } gi k = slot_value ts gi k :=
        fun k hk => slot_value_kept hk2 hp k hk
      rw [substitute_all_congr env tm1.build _ _ n hsv rest hg.2, h4] at l3
      refine ⟨by rw [l1]; omega, frame_kept_trans (Nat.le_succ _) hk2 l2, ?_, l4.trans h4,
        by rw [l5, h5]; omega⟩
      rw [l3]
      congr 1
      rcases l2.2.2.2.2 ts.pos (by omega) with e | ⟨_, _, _, hlt⟩
      · rw [e]
        simp [set_type, h2, h1]
      · omega
end

/-- `lily_ts_resolve` is substitution of the slot values, restores `pos` and
touches the frame only by the fallback writes. -/
theorem lily_ts_resolve_spec (env : Registry) (ts : lily_type_system) (tm : lily_type_maker)
    (T : lily_type) (hg : generics_below env ts.ceiling T = true) :
    (lily_ts_resolve env ts tm T).1 = substitute env tm.build (slot_value ts ts.pos) T ∧
    (lily_ts_resolve env ts tm T).2.1.pos = ts.pos ∧
    frame_kept ts.pos ts.ceiling (ts.pos + ts.ceiling) ts (lily_ts_resolve env ts tm T).2.1 ∧
    (lily_ts_resolve env ts tm T).2.2.build = tm.build ∧
    (lily_ts_resolve env ts tm T).2.2.calls = tm.calls + composite_count T := by
  obtain ⟨h1, h2, h3, h4, h5⟩ := deep_type_build_spec env ts.pos ts.ceiling T
    { ts with pos := ts.pos + ts.ceiling } tm hg (le_refl _)
  simp only at h2 h3
  obtain ⟨c1, s1, a1, m1, t1⟩ := h3
  simp only at c1 s1 a1 m1 t1
  refine ⟨h1, ?_, ⟨c1, s1, a1, m1, t1⟩, h4, h5⟩
  simp only [lily_ts_resolve, h2, c1]
  omega

mutual
theorem generics_below_of_concrete (env : Registry) (n : Nat) :
    ∀ (T : lily_type), is_concrete env T = true → generics_below env n T = true
  | .null, _ => by simp [generics_below]
  | .node c f g subs, h => by
      simp only [is_concrete, Bool.and_eq_true, decide_eq_true_eq] at h
      simp only [generics_below, Bool.and_eq_true, Bool.or_eq_true, decide_eq_true_eq]
      exact ⟨Or.inl h.1, all_generics_below_of_concrete env n subs h.2⟩
theorem all_generics_below_of_concrete (env : Registry) (n : Nat) :
    ∀ (l : List lily_type), all_concrete env l = true → all_generics_below env n l = true
  | [], _ => by simp [all_generics_below]
  | t :: rest, h => by
      simp only [all_concrete, Bool.and_eq_true] at h
      simp only [all_generics_below, Bool.and_eq_true]
      exact ⟨generics_below_of_concrete env n t h.1,
        all_generics_below_of_concrete env n rest h.2⟩
end

mutual
theorem substitute_concrete (env : Registry) (mk : Nat → Nat → List lily_type → lily_type)
    (σ : Nat → lily_type) :
    ∀ (T : lily_type), is_concrete env T = true → interned mk T = true →
      substitute env mk σ T = T
  | .null, _, _ => by simp [substitute]
  | .node c f g subs, hc, hi => by
      simp only [is_concrete, Bool.and_eq_true, decide_eq_true_eq] at hc
      simp only [interned, Bool.and_eq_true, Bool.or_eq_true, decide_eq_true_eq] at hi
      simp only [substitute]
      rw [substitute_all_concrete env mk σ subs hc.2 hi.2]
      by_cases hs : subs ≠ []
      · rw [if_pos hs]
        rcases hi.1 with h1 | h1
        · exact absurd h1 hs
        · exact h1
      · rw [if_neg hs, if_neg hc.1]
theorem substitute_all_concrete (env : Registry) (mk : Nat → Nat → List lily_type → lily_type)
    (σ : Nat → lily_type) :
    ∀ (l : List lily_type), all_concrete env l = true → all_interned mk l = true →
      substitute_all env mk σ l = l
  | [], _, _ => by simp [substitute_all]
  | t :: rest, hc, hi => by
      simp only [all_concrete, Bool.and_eq_true] at hc
      simp only [all_interned, Bool.and_eq_true] at hi
      simp only [substitute_all]
      rw [substitute_concrete env mk σ t hc.1 hi.1,
        substitute_all_concrete env mk σ rest hc.2 hi.2]
end

/-- C12 as stated fails: resolving the concrete type `C[Integer]` invokes the
type maker once. -/
theorem resolve_concrete_counterexample :
    is_concrete zoo (.node 6 0 0 [zoo_Integer]) = true ∧
    (lily_ts_resolve zoo zoo_ts zoo_tm (.node 6 0 0 [zoo_Integer])).2.2.calls =
      zoo_tm.calls + 1 := by
  decide

/-- C12, amended: for every concrete type `T` that is interned by the type
maker (the maker hands back each node of `T` that has subtypes when given the
flags, class and subtypes of that node) and every state, `lily_ts_resolve(T)`
returns `T` itself and restores `pos`; the type maker is invoked once for each
node of `T` that has subtypes, and not at all when `T` has none. -/
theorem resolve_concrete_identity (env : Registry) (ts : lily_type_system)
    (tm : lily_type_maker) (T : lily_type) (hc : is_concrete env T = true)
    (hi : interned tm.build T = true) :
    (lily_ts_resolve env ts tm T).1 = T ∧
    (lily_ts_resolve env ts tm T).2.1.pos = ts.pos ∧
    (lily_ts_resolve env ts tm T).2.2.calls = tm.calls + composite_count T := by
  obtain ⟨h1, h2, _, _, h5⟩ := lily_ts_resolve_spec env ts tm T
    (generics_below_of_concrete env _ T hc)
  exact ⟨by rw [h1, substitute_concrete env tm.build _ T hc hi], h2, h5⟩

/-- Instance of the amended C12: `C[Integer, C[String]]` has two nodes with
subtypes, so the type maker is invoked twice. -/
theorem resolve_concrete_identity_witness :
    (lily_ts_resolve zoo zoo_ts_int zoo_tm
      (.node 6 0 0 [zoo_Integer, .node 6 0 0 [zoo_String]])).1 =
        .node 6 0 0 [zoo_Integer, .node 6 0 0 [zoo_String]] ∧
    (lily_ts_resolve zoo zoo_ts_int zoo_tm
      (.node 6 0 0 [zoo_Integer, .node 6 0 0 [zoo_String]])).2.2.calls = 2 := by
  obtain ⟨h1, _, h3⟩ := resolve_concrete_identity zoo zoo_ts_int zoo_tm
    (.node 6 0 0 [zoo_Integer, .node 6 0 0 [zoo_String]]) (by decide) (by decide)
  exact ⟨h1, h3⟩

/-! ## The fallback for an unbound generic -/

theorem count_loop_succ (ts : lily_type_system) :
    ∀ (n i c : Nat), count_loop ts n i (c + 1) = count_loop ts n i c + 1
  | 0, _, _ => rfl
  | n + 1, i, c => by
      simp only [count_loop]
      split
      · exact count_loop_succ ts n (i + 1) (c + 1)
      · exact count_loop_succ ts n (i + 1) c

theorem count_loop_congr (ts ts1 : lily_type_system) :
    ∀ (n i c : Nat), (∀ j, i ≤ j → j < i + n → ts1.types j = ts.types j) →
      count_loop ts1 n i c = count_loop ts n i c
  | 0, _, _, _ => rfl
  | n + 1, i, c, h => by
      simp only [count_loop, h i (le_refl i) (by omega)]
      exact count_loop_congr ts ts1 n (i + 1) _ (fun j h1 h2 => h j (by omega) (by omega))

/-- Binding one absent slot of the counted range lowers the count by one. -/
theorem count_loop_bind (ts ts1 : lily_type_system) (x : Nat)
    (hnull : ts.types x = .null) (hset : ts1.types x ≠ .null)
    (hrest : ∀ j, j ≠ x → ts1.types j = ts.types j) :
    ∀ (n i c : Nat), i ≤ x → x < i + n →
      count_loop ts1 n i c + 1 = count_loop ts n i c
  | 0, i, c, h1, h2 => by omega
  | n + 1, i, c, h1, h2 => by
      simp only [count_loop]
      by_cases hix : i = x
      · subst hix
        rw [if_pos hnull, if_neg hset, count_loop_succ,
          count_loop_congr ts ts1 n (i + 1) c (fun j h3 _ => hrest j (by omega))]
      · rw [hrest i hix]
        exact count_loop_bind ts ts1 x hnull hset hrest n (i + 1) _ (by omega) (by omega)

/-- C13: unbound-generic fallback.  For a generic placeholder `g` (a leaf of
the generic class) with `generic_pos < ceiling` whose slot in the active frame
is absent, `lily_ts_resolve(g)` returns `any_class_type` (a type, not `null`)
and writes it into the slot of `g`: no other slot changes, `pos` and `ceiling`
are as before, `lily_ts_count_unresolved()` drops by exactly one, and the type
maker is not invoked.  A second `lily_ts_resolve(g)` returns `any_class_type`
again. -/
theorem resolve_unbound_fallback (env : Registry) (ts : lily_type_system)
    (tm : lily_type_maker) (c f gp : Nat)
    (hid : (env.classes c).id = env.SYM_CLASS_GENERIC) (hgp : gp < ts.ceiling)
    (hslot : ts.types (ts.pos + gp) = .null) (hany : ts.any_class_type ≠ .null) :
    (lily_ts_resolve env ts tm (.node c f gp [])).1 = ts.any_class_type ∧
    (lily_ts_resolve env ts tm (.node c f gp [])).2.1.types (ts.pos + gp) =
      ts.any_class_type ∧
    (∀ j, j ≠ ts.pos + gp →
      (lily_ts_resolve env ts tm (.node c f gp [])).2.1.types j = ts.types j) ∧
    (lily_ts_resolve env ts tm (.node c f gp [])).2.1.pos = ts.pos ∧
    (lily_ts_resolve env ts tm (.node c f gp [])).2.1.ceiling = ts.ceiling ∧
    lily_ts_count_unresolved (lily_ts_resolve env ts tm (.node c f gp [])).2.1 + 1 =
      lily_ts_count_unresolved ts ∧
    (lily_ts_resolve env ts tm (.node c f gp [])).2.2.calls = tm.calls ∧
    (lily_ts_resolve env (lily_ts_resolve env ts tm (.node c f gp [])).2.1
      (lily_ts_resolve env ts tm (.node c f gp [])).2.2 (.node c f gp [])).1 =
        ts.any_class_type := by
  have h_ret : (lily_ts_resolve env ts tm (.node c f gp [])).1 = ts.any_class_type := by
    simp [lily_ts_resolve, deep_type_build, hid, hslot]
  have h_types : ∀ j, (lily_ts_resolve env ts tm (.node c f gp [])).2.1.types j =
      if j = ts.pos + gp then ts.any_class_type else ts.types j := by
    intro j
    simp [lily_ts_resolve, deep_type_build, hid, hslot, set_type]
  have h_pos : (lily_ts_resolve env ts tm (.node c f gp [])).2.1.pos = ts.pos := by
    simp [lily_ts_resolve, deep_type_build, hid, hslot, set_type]
  have h_ceil : (lily_ts_resolve env ts tm (.node c f gp [])).2.1.ceiling = ts.ceiling := by
    simp [lily_ts_resolve, deep_type_build, hid, hslot, set_type]
  have h_tm : (lily_ts_resolve env ts tm (.node c f gp [])).2.2 = tm := by
    simp [lily_ts_resolve, deep_type_build, hid, hslot]
  generalize lily_ts_resolve env ts tm (.node c f gp []) = r at h_ret h_types h_pos h_ceil h_tm ⊢
  obtain ⟨ret, ts1, tm1⟩ := r
  simp only at h_ret h_types h_pos h_ceil h_tm
  subst h_tm
  have e : ts1.types (ts1.pos + gp) = ts.any_class_type := by
    rw [h_pos, h_types, if_pos rfl]
  refine ⟨h_ret, ?_, ?_, h_pos, h_ceil, ?_, rfl, ?_⟩
  · rw [h_types, if_pos rfl]
  · intro j hj
    rw [h_types, if_neg hj]
  · simp only [lily_ts_count_unresolved]
    rw [h_pos, h_ceil]
    exact count_loop_bind ts ts1 (ts.pos + gp) hslot
      (by rw [h_types, if_pos rfl]; exact hany)
      (fun j hj => by rw [h_types, if_neg hj]) _ _ _ (by omega) (by omega)
  · simp [lily_ts_resolve, deep_type_build, hid, e, hany]

/-- Instance of C13: placeholder `B` in a frame where only `A` is bound. -/
theorem resolve_unbound_fallback_witness :
    (lily_ts_resolve zoo zoo_ts_int zoo_tm zoo_B).1 = zoo_ts_int.any_class_type ∧
    (lily_ts_resolve zoo zoo_ts_int zoo_tm zoo_B).2.1.types 1 = zoo_ts_int.any_class_type ∧
    lily_ts_count_unresolved (lily_ts_resolve zoo zoo_ts_int zoo_tm zoo_B).2.1 + 1 =
      lily_ts_count_unresolved zoo_ts_int := by
  obtain ⟨h1, h2, _, _, _, h6, _, _⟩ := resolve_unbound_fallback zoo zoo_ts_int zoo_tm 11 0 1
    (by decide) (by decide) (by decide) (by decide)
  exact ⟨h1, h2, h6⟩

/-! ## Resolution is substitution -/

mutual
theorem substitute_congr_mentions (env : Registry)
    (mk : Nat → Nat → List lily_type → lily_type) (σ τ : Nat → lily_type) :
    ∀ (T : lily_type), (∀ k, mentions env k T = true → σ k = τ k) →
      substitute env mk σ T = substitute env mk τ T
  | .null, _ => by simp [substitute]
  | .node c f g subs, h => by
      simp only [substitute]
      rw [substitute_all_congr_mentions env mk σ τ subs
        (fun k hk => h k (by simp [mentions, hk]))]
      by_cases hs : subs ≠ []
      · rw [if_pos hs, if_pos hs]
      · rw [if_neg hs, if_neg hs]
        by_cases hid : (env.classes c).id = env.SYM_CLASS_GENERIC
        · rw [if_pos hid, if_pos hid]
          have hnil : subs = [] := by simpa using hs
          exact h g (by simp [mentions, hnil, hid])
        · rw [if_neg hid, if_neg hid]
theorem substitute_all_congr_mentions (env : Registry)
    (mk : Nat → Nat → List lily_type → lily_type) (σ τ : Nat → lily_type) :
    ∀ (l : List lily_type), (∀ k, mentions_any env k l = true → σ k = τ k) →
      substitute_all env mk σ l = substitute_all env mk τ l
  | [], _ => by simp [substitute_all]
  | t :: rest, h => by
      simp only [substitute_all]
      rw [substitute_congr_mentions env mk σ τ t (fun k hk => h k (by simp [mentions_any, hk])),
        substitute_all_congr_mentions env mk σ τ rest
          (fun k hk => h k (by simp [mentions_any, hk]))]
end

mutual
theorem substitute_is_concrete (env : Registry)
    (mk : Nat → Nat → List lily_type → lily_type) (σ : Nat → lily_type) (n : Nat)
    (hmk : ∀ f c s, ∃ f2 g2, mk f c s = .node c f2 g2 s) :
    ∀ (T : lily_type), generics_below env n T = true →
      (∀ k, mentions env k T = true → is_concrete env (σ k) = true) →
      is_concrete env (substitute env mk σ T) = true
  | .null, _, _ => by simp [substitute, is_concrete]
  | .node c f g subs, hg, h => by
      simp only [generics_below, Bool.and_eq_true, Bool.or_eq_true, decide_eq_true_eq] at hg
      simp only [substitute]
      by_cases hs : subs ≠ []
      · rw [if_pos hs]
        obtain ⟨f2, g2, e⟩ := hmk f c (substitute_all env mk σ subs)
        rw [e]
        simp only [is_concrete, Bool.and_eq_true, decide_eq_true_eq]
        refine ⟨?_, substitute_all_is_concrete env mk σ n hmk subs hg.2
          (fun k hk => h k (by simp [mentions, hk]))⟩
        rcases hg.1 with h1 | ⟨h2, _⟩
        · exact h1
        · exact absurd h2 hs
      · rw [if_neg hs]
        have hnil : subs = [] := by simpa using hs
        by_cases hid : (env.classes c).id = env.SYM_CLASS_GENERIC
        · rw [if_pos hid]
          exact h g (by simp [mentions, hnil, hid])
        · rw [if_neg hid]
          simp [is_concrete, hid, hnil, all_concrete]
theorem substitute_all_is_concrete (env : Registry)
    (mk : Nat → Nat → List lily_type → lily_type) (σ : Nat → lily_type) (n : Nat)
    (hmk : ∀ f c s, ∃ f2 g2, mk f c s = .node c f2 g2 s) :
    ∀ (l : List lily_type), all_generics_below env n l = true →
      (∀ k, mentions_any env k l = true → is_concrete env (σ k) = true) →
      all_concrete env (substitute_all env mk σ l) = true
  | [], _, _ => by simp [substitute_all, all_concrete]
  | t :: rest, hg, h => by
      simp only [all_generics_below, Bool.and_eq_true] at hg
      simp only [substitute_all, all_concrete, Bool.and_eq_true]
      exact ⟨substitute_is_concrete env mk σ n hmk t hg.1
          (fun k hk => h k (by simp [mentions_any, hk])),
        substitute_all_is_concrete env mk σ n hmk rest hg.2
          (fun k hk => h k (by simp [mentions_any, hk]))⟩
end

/-- C14: resolve is substitution.  For a type `T` whose placeholders are
leaves with `generic_pos < ceiling`, in a state where the slot of every
placeholder of `T` is bound to a concrete type, `lily_ts_resolve(T)` is `T`
with each placeholder of position `k` replaced by the value of slot `pos + k`,
composite nodes rebuilt by the type maker with the same class and flags and
absent subtypes left absent; when the type maker hands back a node of the
class and subtypes it was given, the result has no placeholder. -/
theorem resolve_is_substitution (env : Registry) (ts : lily_type_system)
    (tm : lily_type_maker) (T : lily_type)
    (hg : generics_below env ts.ceiling T = true)
    (hb : ∀ k, mentions env k T = true →
      ts.types (ts.pos + k) ≠ .null ∧ is_concrete env (ts.types (ts.pos + k)) = true)
    (hmk : ∀ f c s, ∃ f2 g2, tm.build f c s = .node c f2 g2 s) :
    (lily_ts_resolve env ts tm T).1 =
      substitute env tm.build (fun k => ts.types (ts.pos + k)) T ∧
    is_concrete env (lily_ts_resolve env ts tm T).1 = true := by
  obtain ⟨h1, _, _, _, _⟩ := lily_ts_resolve_spec env ts tm T hg
  have h2 : substitute env tm.build (slot_value ts ts.pos) T =
      substitute env tm.build (fun k => ts.types (ts.pos + k)) T :=
    substitute_congr_mentions env tm.build _ _ T
      (fun k hk => by simp [slot_value, (hb k hk).1])
  rw [h1, h2]
  exact ⟨rfl, substitute_is_concrete env tm.build _ ts.ceiling hmk T hg
    (fun k hk => (hb k hk).2)⟩

/-- Instance of C14: `Tuple[A, function (B => A)]` with `A := Integer` and
`B := String`. -/
theorem resolve_is_substitution_witness :
    (lily_ts_resolve zoo zoo_ts_both zoo_tm
      (.node 8 0 0 [zoo_A, zoo_fn zoo_A [zoo_B]])).1 =
      .node 8 0 0 [zoo_Integer, zoo_fn zoo_Integer [zoo_String]] := by
  obtain ⟨h1, _⟩ := resolve_is_substitution zoo zoo_ts_both zoo_tm
    (.node 8 0 0 [zoo_A, zoo_fn zoo_A [zoo_B]]) (by decide)
    (by
      intro k hk
      have hk2 : k = 0 ∨ k = 1 := by
        by_contra hne
        have h0 : k ≠ 0 := fun e => hne (Or.inl e)
        have h1 : k ≠ 1 := fun e => hne (Or.inr e)
        simp [mentions, mentions_any, zoo_fn, zoo_A, zoo_B, Ne.symm h0, Ne.symm h1] at hk
      rcases hk2 with e | e <;> subst e <;> decide)
    (fun f c s => ⟨f, 0, rfl⟩)
  exact h1.trans (by decide)

/-! ## Resolution against a context type -/

theorem stage_loop_spec (S : Nat) :
    ∀ (l : List lily_type) (i : Nat) (ts : lily_type_system),
      (stage_loop S l i ts).pos = ts.pos ∧ (stage_loop S l i ts).ceiling = ts.ceiling ∧
      (stage_loop S l i ts).any_class_type = ts.any_class_type ∧
      ∀ j, (stage_loop S l i ts).types j =
        if S + i ≤ j ∧ j < S + i + l.length then l.getD (j - (S + i)) .null else ts.types j
  | [], i, ts => by
      refine ⟨rfl, rfl, rfl, fun j => ?_⟩
      have : ¬ (S + i ≤ j ∧ j < S + i + ([] : List lily_type).length) := by
        simp only [List.length_nil]; omega
      rw [if_neg this]
      rfl
  | t :: rest, i, ts => by
      obtain ⟨h1, h2, h3, h4⟩ := stage_loop_spec S rest (i + 1) (set_type ts (S + i) t)
      simp only [stage_loop]
      refine ⟨h1, h2, h3, fun j => ?_⟩
      rw [h4 j]
      by_cases hin : S + (i + 1) ≤ j ∧ j < S + (i + 1) + rest.length
      · have hin2 : S + i ≤ j ∧ j < S + i + (t :: rest).length := by
          simp only [List.length_cons]; omega
        rw [if_pos hin, if_pos hin2]
        obtain ⟨d, hd⟩ : ∃ d, j - (S + i) = d + 1 := ⟨j - (S + i) - 1, by omega⟩
        rw [hd, List.getD_cons_succ, show j - (S + (i + 1)) = d by omega]
      · rw [if_neg hin]
        by_cases hj : j = S + i
        · have hin2 : S + i ≤ j ∧ j < S + i + (t :: rest).length := by
            simp only [List.length_cons]; omega
          rw [if_pos hin2, hj]
          simp [set_type]
        · have hin2 : ¬ (S + i ≤ j ∧ j < S + i + (t :: rest).length) := by
            simp only [List.length_cons]; omega
          rw [if_neg hin2]
          simp [set_type, hj]

/-- C15 as stated fails.  With a ceiling of 0 the context `Hash[Integer,
String]` and the target `Tuple[B, A]` give `Tuple[String, String]`, not
`Tuple[String, Integer]`: the scratch window overlaps the staged subtypes.
And when a subtype of the context is absent, as the return slot of
`function ( => )` taken as context, placeholder `A` resolves to
`any_class_type`, not to that absent subtype. -/
theorem resolve_by_second_counterexample :
    (generics_below zoo 2 (.node 8 0 0 [zoo_B, zoo_A]) = true ∧
      result_of (lily_ts_resolve_by_second zoo zoo_ts_wide zoo_tm
        (.node 7 0 0 [zoo_Integer, zoo_String]) (.node 8 0 0 [zoo_B, zoo_A])) =
        some (.node 8 0 0 [zoo_String, zoo_String]) ∧
      substitute zoo zoo_tm.build (fun k => [zoo_Integer, zoo_String].getD k .null)
        (.node 8 0 0 [zoo_B, zoo_A]) = .node 8 0 0 [zoo_String, zoo_Integer]) ∧
    (result_of (lily_ts_resolve_by_second zoo zoo_ts zoo_tm (zoo_fn .null []) zoo_A) =
        some zoo_ts.any_class_type ∧
      substitute zoo zoo_tm.build (fun k => [lily_type.null].getD k .null) zoo_A = .null) := by
  decide

/-- C15, amended: for every context type `C` with `n` non-absent subtypes,
every target `T` whose placeholders are leaves with `generic_pos < n`, and
every state whose ceiling is at least `n`, `lily_ts_resolve_by_second(C, T)`
returns `T` with each placeholder of position `k` replaced by the `k`-th
subtype of `C`, and `pos` and `ceiling` are the same after the call as
before. -/
theorem resolve_by_second_substitution (env : Registry) (ts : lily_type_system)
    (tm : lily_type_maker) (cc cf cg : Nat) (csubs : List lily_type) (T : lily_type)
    (hn : csubs.length ≤ ts.ceiling) (hnn : ∀ t ∈ csubs, t ≠ lily_type.null)
    (hg : generics_below env csubs.length T = true) :
    ∃ r, lily_ts_resolve_by_second env ts tm (.node cc cf cg csubs) T = .ok r ∧
      r.1 = substitute env tm.build (fun k => csubs.getD k .null) T ∧
      r.2.1.pos = ts.pos ∧ r.2.1.ceiling = ts.ceiling := by
  obtain ⟨e1, e2, _, e4, _⟩ :=
    ENSURE_TYPE_STACK_fields ts (ts.pos + ts.ceiling + 1 + csubs.length)
  obtain ⟨s1, s2, s3, s4⟩ := stage_loop_spec (ts.pos + ts.ceiling + 1) csubs 0
    (ENSURE_TYPE_STACK ts (ts.pos + ts.ceiling + 1 + csubs.length))
  rw [e2] at s2
  simp only [lily_ts_resolve_by_second, lily_ts_resolve]
  refine ⟨_, rfl, ?_, rfl, ?_⟩
  · simp only [s2]
    refine (deep_type_build_spec env (ts.pos + ts.ceiling + 1) csubs.length T _ tm hg
      (by simp only; omega)).1.trans ?_
    apply substitute_congr env tm.build _ _ csubs.length _ T hg
    intro k hk
    have hmem : csubs.getD k .null ∈ csubs := by
      rw [List.getD_eq_getElem csubs .null hk]
      exact List.getElem_mem _
    have hval : (stage_loop (ts.pos + ts.ceiling + 1) csubs 0
        (ENSURE_TYPE_STACK ts (ts.pos + ts.ceiling + 1 + csubs.length))).types
        (ts.pos + ts.ceiling + 1 + k) = csubs.getD k .null := by
      rw [s4]
      have hin : ts.pos + ts.ceiling + 1 + 0 ≤ ts.pos + ts.ceiling + 1 + k ∧
          ts.pos + ts.ceiling + 1 + k < ts.pos + ts.ceiling + 1 + 0 + csubs.length := by
        omega
      rw [if_pos hin]
      congr 1
      omega
    simp only [slot_value, hval, hnn _ hmem, if_false]
  · simp only [s2]
    have hk := (deep_type_build_spec env (ts.pos + ts.ceiling + 1) csubs.length T
      { types := (stage_loop (ts.pos + ts.ceiling + 1) csubs 0
          (ENSURE_TYPE_STACK ts (ts.pos + ts.ceiling + 1 + csubs.length))).types,
        pos := ts.pos + ts.ceiling + 1 + ts.ceiling,
        max := (stage_loop (ts.pos + ts.ceiling + 1) csubs 0
          (ENSURE_TYPE_STACK ts (ts.pos + ts.ceiling + 1 + csubs.length))).max,
        max_seen := (stage_loop (ts.pos + ts.ceiling + 1) csubs 0
          (ENSURE_TYPE_STACK ts (ts.pos + ts.ceiling + 1 + csubs.length))).max_seen,
        ceiling := ts.ceiling,
        any_class_type := (stage_loop (ts.pos + ts.ceiling + 1) csubs 0
          (ENSURE_TYPE_STACK ts (ts.pos + ts.ceiling + 1 + csubs.length))).any_class_type }
      tm hg (by simp only; omega)).2.2.1.1
    exact hk

/-- Instance of the amended C15: with a ceiling of 2 the context
`Hash[Integer, String]` turns `Tuple[B, A]` into `Tuple[String, Integer]`. -/
theorem resolve_by_second_substitution_witness :
    result_of (lily_ts_resolve_by_second zoo zoo_ts zoo_tm
      (.node 7 0 0 [zoo_Integer, zoo_String]) (.node 8 0 0 [zoo_B, zoo_A])) =
      some (.node 8 0 0 [zoo_String, zoo_Integer]) := by
  obtain ⟨r, hr, h1, _, _⟩ := resolve_by_second_substitution zoo zoo_ts zoo_tm 7 0 0
    [zoo_Integer, zoo_String] (.node 8 0 0 [zoo_B, zoo_A]) (by decide) (by decide) (by decide)
  rw [hr]
  simp only [result_of, Option.some.injEq]
  exact h1.trans (by decide)

/-! ## The scratch use of the resolver -/

/-- C20: the scratch use of resolve does not disturb the active frame.  For a
type `T` whose placeholders are leaves with `generic_pos < ceiling` and every
state, after `lily_ts_resolve(T)` the fields `pos` and `ceiling` are as
before; a slot below `pos + ceiling` is unchanged, or it was absent, lies in
the active frame and now holds `any_class_type`; so every slot of the frame
that was bound keeps its value, the slots below `pos` are untouched, and all
other writes land at indices from `pos + ceiling` on. -/
theorem resolve_keeps_frame (env : Registry) (ts : lily_type_system) (tm : lily_type_maker)
    (T : lily_type) (hg : generics_below env ts.ceiling T = true) :
    (lily_ts_resolve env ts tm T).2.1.pos = ts.pos ∧
    (lily_ts_resolve env ts tm T).2.1.ceiling = ts.ceiling ∧
    (∀ j, j < ts.pos + ts.ceiling →
      (lily_ts_resolve env ts tm T).2.1.types j = ts.types j ∨
      (ts.types j = .null ∧
        (lily_ts_resolve env ts tm T).2.1.types j = ts.any_class_type ∧ ts.pos ≤ j)) ∧
    (∀ j, j < ts.pos + ts.ceiling → ts.types j ≠ .null →
      (lily_ts_resolve env ts tm T).2.1.types j = ts.types j) ∧
    (∀ j, j < ts.pos → (lily_ts_resolve env ts tm T).2.1.types j = ts.types j) := by
  obtain ⟨_, h2, ⟨c1, _, _, _, t1⟩, _, _⟩ := lily_ts_resolve_spec env ts tm T hg
  refine ⟨h2, c1, fun j hj => ?_, fun j hj hb => ?_, fun j hj => ?_⟩
  · rcases t1 j hj with e | ⟨n1, v1, l1, _⟩
    · exact Or.inl e
    · exact Or.inr ⟨n1, v1, l1⟩
  · rcases t1 j hj with e | ⟨n1, _, _, _⟩
    · exact e
    · exact absurd n1 hb
  · rcases t1 j (by omega) with e | ⟨_, _, l1, _⟩
    · exact e
    · omega

/-- Instance of C20: resolving `Tuple[A, Tuple[B]]` with only `A` bound keeps
`pos` and the binding of `A`, and the slot of `B` receives the fallback. -/
theorem resolve_keeps_frame_witness :
    (lily_ts_resolve zoo zoo_ts_int zoo_tm
      (.node 8 0 0 [zoo_A, .node 8 0 0 [zoo_B]])).2.1.pos = zoo_ts_int.pos ∧
    (lily_ts_resolve zoo zoo_ts_int zoo_tm
      (.node 8 0 0 [zoo_A, .node 8 0 0 [zoo_B]])).2.1.types 0 = zoo_Integer ∧
    (lily_ts_resolve zoo zoo_ts_int zoo_tm
      (.node 8 0 0 [zoo_A, .node 8 0 0 [zoo_B]])).2.1.types 1 =
        zoo_ts_int.any_class_type := by
  obtain ⟨h1, _, _, h4, _⟩ := resolve_keeps_frame zoo zoo_ts_int zoo_tm
    (.node 8 0 0 [zoo_A, .node 8 0 0 [zoo_B]]) (by decide)
  exact ⟨h1, h4 0 (by decide) (by decide), by decide⟩
